import Mathlib

/-!
Verification of the transaction construction / signing / wire-codec engine
(`@stacks/transactions`-style package of the blockstack/opendig repository).

The file embeds, shallowly:

* the wire primitives (big-endian fixed-width integers, length-prefixed
  sequences) and the transaction-envelope codec — the codec implementation
  itself (`transaction.ts`, `authorization.ts`, `signer.ts`) is not part of
  the provided sources, so those definitions are modelled from the spec and
  are marked as such in their doc comments;
* the builder layer (`src/packages/transactions/src/builders.ts`), which is
  part of the provided sources and is embedded directly from the code.

Bytes are modelled as natural numbers; a byte string is a `List Nat` whose
members are `< 256` (the well-formedness predicates carry the bounds).
External cryptographic collaborators (public-key derivation, hashing,
address encoding, fee/nonce estimation) are abstract function parameters.
-/

namespace OpenDig

/-- Big-endian fixed-width encoding of `n` into `w` bytes (most significant
byte first); `n` is taken modulo `256 ^ w`. -/
def beBytes : (w : Nat) → (n : Nat) → List Nat
  | 0, _ => []
  | w + 1, n => n / 256 ^ w % 256 :: beBytes w (n % 256 ^ w)

/-- Big-endian value of a byte string (fold, most significant first). -/
def beVal (bs : List Nat) : Nat := bs.foldl (fun a b => a * 256 + b) 0

/-- A byte string: every member is below 256. -/
def bytesOk (bs : List Nat) : Prop := ∀ b ∈ bs, b < 256

instance (bs : List Nat) : Decidable (bytesOk bs) := by
  unfold bytesOk; infer_instance

/-- Read exactly `n` bytes from the front of the input; `none` when fewer remain
(the `TruncatedInputError` case of the wire primitives). -/
def readBytes (n : Nat) (bs : List Nat) : Option (List Nat × List Nat) :=
  if bs.length < n then none else some (bs.take n, bs.drop n)

/-! ### Hexadecimal representation of byte strings -/

/-- Lowercase hex digit for a nibble. -/
def hexDigitChar (n : Nat) : Char :=
  if n < 10 then Char.ofNat (48 + n) else Char.ofNat (87 + n)

/-- Two lowercase hex characters for one byte. -/
def byteToHexChars (b : Nat) : List Char := [hexDigitChar (b / 16), hexDigitChar (b % 16)]

/-- Hex encoding of a byte string (no `0x` marker), as produced by `bytesToHex`. -/
def bytesToHexChars (bs : List Nat) : List Char :=
  bs.foldr (fun b acc => byteToHexChars b ++ acc) []

/-- Value of one hex digit; accepts both lower- and uppercase. -/
def hexDigitVal (c : Char) : Option Nat :=
  if 48 ≤ c.toNat ∧ c.toNat ≤ 57 then some (c.toNat - 48)
  else if 97 ≤ c.toNat ∧ c.toNat ≤ 102 then some (c.toNat - 87)
  else if 65 ≤ c.toNat ∧ c.toNat ≤ 70 then some (c.toNat - 55)
  else none

/-- Hex decoding (`hexToBytes`): pairs of hex digits; fails on odd length or
a non-hex character. -/
def hexCharsToBytes : List Char → Option (List Nat)
  | [] => some []
  | [_] => none
  | c1 :: c2 :: rest => do
      let h ← hexDigitVal c1
      let l ← hexDigitVal c2
      let tl ← hexCharsToBytes rest
      some ((16 * h + l) :: tl)

/-! ### Data model

Modelled from the spec: the transaction data model of §3 (`transaction.ts`,
`authorization.ts` and the wire types are not among the provided sources;
only their tests and callers are).  Byte-level tag values follow the wire
format described in §4.4 and the serialized fixtures in the test suite. -/

/-- Single-signature address hash modes (spec §3: P2PKH, P2WPKH-equivalent). -/
inductive SingleHashMode
  | p2pkh
  | p2wpkh
  deriving DecidableEq, Repr

/-- Multi-signature address hash modes (spec §3: sequential P2SH-equivalent,
non-sequential P2SH-equivalent, segwit-multisig). -/
inductive MultiHashMode
  | p2sh
  | p2shNonSeq
  | p2wsh
  deriving DecidableEq, Repr

/-- Wire tag byte of a single-sig hash mode. -/
def SingleHashMode.tag : SingleHashMode → Nat
  | .p2pkh => 0
  | .p2wpkh => 2

/-- Wire tag byte of a multi-sig hash mode. -/
def MultiHashMode.tag : MultiHashMode → Nat
  | .p2sh => 1
  | .p2wsh => 3
  | .p2shNonSeq => 5

/-- Spec §4.2: the segwit-style modes are the ones that require compressed
public keys. -/
def MultiHashMode.requiresCompressed : MultiHashMode → Bool
  | .p2wsh => true
  | _ => false

/-- Spec §4.2: P2WPKH is the segwit-style single-sig mode; it requires a
compressed key encoding. -/
def SingleHashMode.requiresCompressed : SingleHashMode → Bool
  | .p2wpkh => true
  | .p2pkh => false

/-- Auth-field kind: a multi-sig slot holds either a recoverable signature or
a bare public key (spec §3), disambiguated by a field-type tag. -/
inductive AuthFieldKind
  | signature
  | publicKey
  deriving DecidableEq, Repr

/-- One auth field of a multi-sig spending condition.  The wire tag byte
encodes the kind together with the key-compression flag. -/
structure AuthField where
  compressed : Bool
  kind : AuthFieldKind
  data : List Nat
  deriving DecidableEq, Repr

/-- Wire tag byte of an auth field (pubkey-compressed 0, pubkey-uncompressed 1,
sig-compressed 2, sig-uncompressed 3). -/
def AuthField.tag (f : AuthField) : Nat :=
  match f.kind, f.compressed with
  | .publicKey, true => 0
  | .publicKey, false => 1
  | .signature, true => 2
  | .signature, false => 3

/-- Payload length of an auth field: a compressed key is 33 bytes, an
uncompressed key 65 bytes, a recoverable signature always 65 bytes. -/
def AuthField.dataLen (f : AuthField) : Nat :=
  match f.kind, f.compressed with
  | .publicKey, true => 33
  | .publicKey, false => 65
  | .signature, _ => 65

def wfAuthField (f : AuthField) : Prop :=
  f.data.length = f.dataLen ∧ bytesOk f.data

instance (f : AuthField) : Decidable (wfAuthField f) := by
  unfold wfAuthField; infer_instance

/-- Single-sig spending condition (spec §3): hash mode, signer hash160, fee,
nonce, key-encoding flag and one signature slot. -/
structure SingleSigSC where
  hashMode : SingleHashMode
  signer : List Nat
  nonce : Nat
  fee : Nat
  keyEncodingCompressed : Bool
  signature : List Nat
  deriving DecidableEq, Repr

/-- Multi-sig spending condition (spec §3): hash mode, signer hash160, fee,
nonce, ordered auth-field list and the required-signature count N. -/
structure MultiSigSC where
  hashMode : MultiHashMode
  signer : List Nat
  nonce : Nat
  fee : Nat
  fields : List AuthField
  signaturesRequired : Nat
  deriving DecidableEq, Repr

inductive SpendingCondition
  | single (c : SingleSigSC)
  | multi (c : MultiSigSC)
  deriving DecidableEq, Repr

/-- The signer hash160 of either kind of spending condition. -/
def SpendingCondition.signer : SpendingCondition → List Nat
  | .single c => c.signer
  | .multi c => c.signer

def SpendingCondition.fee : SpendingCondition → Nat
  | .single c => c.fee
  | .multi c => c.fee

def SpendingCondition.nonce : SpendingCondition → Nat
  | .single c => c.nonce
  | .multi c => c.nonce

/-- `isSingleSig` of `authorization.ts` (dispatch on the condition family). -/
def isSingleSig : SpendingCondition → Bool
  | .single _ => true
  | .multi _ => false

/-- Structural validity of a single-sig condition apart from the hash-mode /
key-compression compatibility rule. -/
def wfSingleSigSCCore (c : SingleSigSC) : Prop :=
  c.signer.length = 20 ∧ bytesOk c.signer ∧ c.nonce < 2 ^ 64 ∧ c.fee < 2 ^ 64 ∧
    c.signature.length = 65 ∧ bytesOk c.signature

def wfSingleSigSC (c : SingleSigSC) : Prop :=
  wfSingleSigSCCore c ∧ (c.hashMode.requiresCompressed → c.keyEncodingCompressed = true)

/-- Structural validity of a multi-sig condition apart from the hash-mode /
key-compression compatibility rule. -/
def wfMultiSigSCCore (c : MultiSigSC) : Prop :=
  c.signer.length = 20 ∧ bytesOk c.signer ∧ c.nonce < 2 ^ 64 ∧ c.fee < 2 ^ 64 ∧
    c.fields.length < 2 ^ 32 ∧ c.signaturesRequired < 2 ^ 16 ∧
    (∀ f ∈ c.fields, wfAuthField f)

/-- Structural validity of a multi-sig condition; the segwit modes require
every field to carry the compressed flag (spec §4.2), which the codec checks
when decoding. -/
def wfMultiSigSC (c : MultiSigSC) : Prop :=
  wfMultiSigSCCore c ∧
    (c.hashMode.requiresCompressed → ∀ f ∈ c.fields, f.compressed = true)

def wfSpendingCondition : SpendingCondition → Prop
  | .single c => wfSingleSigSC c
  | .multi c => wfMultiSigSC c

instance (c : SingleSigSC) : Decidable (wfSingleSigSCCore c) := by
  unfold wfSingleSigSCCore; infer_instance

instance (c : SingleSigSC) : Decidable (wfSingleSigSC c) := by
  unfold wfSingleSigSC; infer_instance

instance (c : MultiSigSC) : Decidable (wfMultiSigSCCore c) := by
  unfold wfMultiSigSCCore; infer_instance

instance (c : MultiSigSC) : Decidable (wfMultiSigSC c) := by
  unfold wfMultiSigSC; infer_instance

instance (c : SpendingCondition) : Decidable (wfSpendingCondition c) := by
  cases c <;> (unfold wfSpendingCondition; infer_instance)

/-- Authorization (spec §3): Standard (one spending condition) or Sponsored
(origin + sponsor condition).  Wire tags 0x04 / 0x05. -/
inductive Authorization
  | standard (origin : SpendingCondition)
  | sponsored (origin : SpendingCondition) (sponsor : SpendingCondition)
  deriving DecidableEq, Repr

/-- The origin spending condition (`auth.spendingCondition` in the source). -/
def Authorization.spendingCondition : Authorization → SpendingCondition
  | .standard o => o
  | .sponsored o _ => o

def wfAuthorization : Authorization → Prop
  | .standard o => wfSpendingCondition o
  | .sponsored o s => wfSpendingCondition o ∧ wfSpendingCondition s

instance (a : Authorization) : Decidable (wfAuthorization a) := by
  cases a <;> (unfold wfAuthorization; infer_instance)

/-- A c32 address body: version byte plus hash160. -/
structure Address where
  version : Nat
  hash160 : List Nat
  deriving DecidableEq, Repr

def wfAddress (a : Address) : Prop :=
  a.version < 256 ∧ a.hash160.length = 20 ∧ bytesOk a.hash160

instance (a : Address) : Decidable (wfAddress a) := by
  unfold wfAddress; infer_instance

/-- Clarity values, restricted to the variants the transaction claims exercise
(uint, booleans, standard/contract principals).  Wire tags follow the Clarity
value encoding (uint 0x01, true 0x03, false 0x04, principals 0x05/0x06). -/
inductive ClarityV
  | uintCV (n : Nat)
  | trueCV
  | falseCV
  | standardPrincipalCV (a : Address)
  | contractPrincipalCV (a : Address) (name : List Nat)
  deriving DecidableEq, Repr

def wfClarityV : ClarityV → Prop
  | .uintCV n => n < 2 ^ 128
  | .trueCV => True
  | .falseCV => True
  | .standardPrincipalCV a => wfAddress a
  | .contractPrincipalCV a name => wfAddress a ∧ name.length < 256 ∧ bytesOk name

instance (v : ClarityV) : Decidable (wfClarityV v) := by
  cases v <;> (unfold wfClarityV; infer_instance)

/-- Does a Clarity value denote a principal (the token-transfer recipient must). -/
def ClarityV.isPrincipal : ClarityV → Bool
  | .standardPrincipalCV _ => true
  | .contractPrincipalCV _ _ => true
  | _ => false

/-- Payload (spec §3), restricted to the three builder-reachable kinds:
TokenTransfer, SmartContract (plain 0x01 / versioned 0x06) and ContractCall
(0x02).  The token-transfer memo is stored as its full 34-byte wire image. -/
inductive Payload
  | tokenTransfer (recipient : ClarityV) (amount : Nat) (memo : List Nat)
  | smartContract (name : List Nat) (code : List Nat)
  | versionedSmartContract (clarityVersion : Nat) (name : List Nat) (code : List Nat)
  | contractCall (addr : Address) (contractName : List Nat) (functionName : List Nat)
      (args : List ClarityV)
  deriving DecidableEq, Repr

def wfPayload : Payload → Prop
  | .tokenTransfer r amt memo =>
      r.isPrincipal = true ∧ wfClarityV r ∧ amt < 2 ^ 64 ∧ memo.length = 34 ∧ bytesOk memo
  | .smartContract name code =>
      name.length < 256 ∧ bytesOk name ∧ code.length < 2 ^ 32 ∧ bytesOk code
  | .versionedSmartContract v name code =>
      v < 256 ∧ name.length < 256 ∧ bytesOk name ∧ code.length < 2 ^ 32 ∧ bytesOk code
  | .contractCall addr cname fname args =>
      wfAddress addr ∧ cname.length < 256 ∧ bytesOk cname ∧
        fname.length < 256 ∧ bytesOk fname ∧ args.length < 2 ^ 32 ∧
        (∀ v ∈ args, wfClarityV v)

instance (p : Payload) : Decidable (wfPayload p) := by
  cases p <;> (unfold wfPayload; infer_instance)

/-- Post-condition principal (spec §3): origin-sentinel (0x01), standard
address (0x02) or contract address (0x03). -/
inductive PCPrincipal
  | origin
  | standard (a : Address)
  | contract (a : Address) (name : List Nat)
  deriving DecidableEq, Repr

def wfPCPrincipal : PCPrincipal → Prop
  | .origin => True
  | .standard a => wfAddress a
  | .contract a name => wfAddress a ∧ name.length < 256 ∧ bytesOk name

instance (p : PCPrincipal) : Decidable (wfPCPrincipal p) := by
  cases p <;> (unfold wfPCPrincipal; infer_instance)

/-- Asset descriptor of a fungible / non-fungible post-condition. -/
structure AssetInfo where
  address : Address
  contractName : List Nat
  assetName : List Nat
  deriving DecidableEq, Repr

def wfAssetInfo (a : AssetInfo) : Prop :=
  wfAddress a.address ∧ a.contractName.length < 256 ∧ bytesOk a.contractName ∧
    a.assetName.length < 256 ∧ bytesOk a.assetName

instance (a : AssetInfo) : Decidable (wfAssetInfo a) := by
  unfold wfAssetInfo; infer_instance

/-- Post-conditions (spec §3): principal + asset class (native coin 0x00,
fungible 0x01, non-fungible 0x02) + condition code + amount. -/
inductive PostCondition
  | stx (p : PCPrincipal) (code : Nat) (amount : Nat)
  | fungible (p : PCPrincipal) (asset : AssetInfo) (code : Nat) (amount : Nat)
  | nonFungible (p : PCPrincipal) (asset : AssetInfo) (value : ClarityV) (code : Nat)
  deriving DecidableEq, Repr

def wfPostCondition : PostCondition → Prop
  | .stx p code amt => wfPCPrincipal p ∧ code < 256 ∧ amt < 2 ^ 64
  | .fungible p a code amt => wfPCPrincipal p ∧ wfAssetInfo a ∧ code < 256 ∧ amt < 2 ^ 64
  | .nonFungible p a v code => wfPCPrincipal p ∧ wfAssetInfo a ∧ wfClarityV v ∧ code < 256

instance (p : PostCondition) : Decidable (wfPostCondition p) := by
  cases p <;> (unfold wfPostCondition; infer_instance)

/-- The transaction envelope (spec §3): version, chain id, authorization,
anchor mode, post-condition mode, ordered post-condition list, payload. -/
structure StacksTransaction where
  version : Nat
  chainId : Nat
  auth : Authorization
  anchorMode : Nat
  postConditionMode : Nat
  postConditions : List PostCondition
  payload : Payload
  deriving DecidableEq, Repr

def wfTransaction (tx : StacksTransaction) : Prop :=
  tx.version < 256 ∧ tx.chainId < 2 ^ 32 ∧ wfAuthorization tx.auth ∧
    (tx.anchorMode = 1 ∨ tx.anchorMode = 2 ∨ tx.anchorMode = 3) ∧
    (tx.postConditionMode = 1 ∨ tx.postConditionMode = 2) ∧
    tx.postConditions.length < 2 ^ 32 ∧
    (∀ pc ∈ tx.postConditions, wfPostCondition pc) ∧
    wfPayload tx.payload

instance (tx : StacksTransaction) : Decidable (wfTransaction tx) := by
  unfold wfTransaction; infer_instance

/-! ### Serialization (spec §4.4: concatenation of tag bytes, big-endian
integers, length-prefixed sequences) -/

/-- One-byte length prefix followed by the raw bytes. -/
def serLP8 (bs : List Nat) : List Nat := bs.length :: bs

/-- Four-byte big-endian length prefix followed by the raw bytes. -/
def serLP32 (bs : List Nat) : List Nat := beBytes 4 bs.length ++ bs

/-- Concatenation of the serializations of all elements of a sequence. -/
def serAll (ser : α → List Nat) (xs : List α) : List Nat :=
  xs.foldr (fun x acc => ser x ++ acc) []

def serAuthField (f : AuthField) : List Nat := f.tag :: f.data

/-- Body of a single-sig condition after the hash-mode tag: signer hash160,
nonce, fee (8-byte big-endian each), key-encoding byte, 65-byte signature. -/
def serSingleBody (c : SingleSigSC) : List Nat :=
  c.signer ++ beBytes 8 c.nonce ++ beBytes 8 c.fee ++
    (if c.keyEncodingCompressed then 0 else 1) :: c.signature

def serSingleSigSC (c : SingleSigSC) : List Nat :=
  c.hashMode.tag :: serSingleBody c

/-- Body of a multi-sig condition after the hash-mode tag: signer hash160,
nonce, fee, 4-byte field count, the auth fields, 2-byte required-signature
count. -/
def serMultiBody (c : MultiSigSC) : List Nat :=
  c.signer ++ beBytes 8 c.nonce ++ beBytes 8 c.fee ++
    beBytes 4 c.fields.length ++ serAll serAuthField c.fields ++
    beBytes 2 c.signaturesRequired

def serMultiSigSC (c : MultiSigSC) : List Nat :=
  c.hashMode.tag :: serMultiBody c

def serSpendingCondition : SpendingCondition → List Nat
  | .single c => serSingleSigSC c
  | .multi c => serMultiSigSC c

def serAuthorization : Authorization → List Nat
  | .standard o => 4 :: serSpendingCondition o
  | .sponsored o s => 5 :: serSpendingCondition o ++ serSpendingCondition s

def serAddress (a : Address) : List Nat := a.version :: a.hash160

def serClarityV : ClarityV → List Nat
  | .uintCV n => 1 :: beBytes 16 n
  | .trueCV => [3]
  | .falseCV => [4]
  | .standardPrincipalCV a => 5 :: serAddress a
  | .contractPrincipalCV a name => 6 :: serAddress a ++ serLP8 name

def serPCPrincipal : PCPrincipal → List Nat
  | .origin => [1]
  | .standard a => 2 :: serAddress a
  | .contract a name => 3 :: serAddress a ++ serLP8 name

def serAssetInfo (a : AssetInfo) : List Nat :=
  serAddress a.address ++ serLP8 a.contractName ++ serLP8 a.assetName

def serPostCondition : PostCondition → List Nat
  | .stx p code amt => 0 :: serPCPrincipal p ++ code :: beBytes 8 amt
  | .fungible p a code amt =>
      1 :: serPCPrincipal p ++ serAssetInfo a ++ code :: beBytes 8 amt
  | .nonFungible p a v code =>
      2 :: serPCPrincipal p ++ serAssetInfo a ++ serClarityV v ++ [code]

def serPayload : Payload → List Nat
  | .tokenTransfer r amt memo => 0 :: serClarityV r ++ beBytes 8 amt ++ memo
  | .smartContract name code => 1 :: serLP8 name ++ serLP32 code
  | .versionedSmartContract v name code => 6 :: v :: serLP8 name ++ serLP32 code
  | .contractCall addr cname fname args =>
      2 :: serAddress addr ++ serLP8 cname ++ serLP8 fname ++
        beBytes 4 args.length ++ serAll serClarityV args

/-- `serialize(envelope)` — spec §4.4: version, chain id, authorization,
anchor mode, post-condition mode, post-conditions, payload. -/
def serializeTransaction (tx : StacksTransaction) : List Nat :=
  tx.version :: beBytes 4 tx.chainId ++ serAuthorization tx.auth ++
    tx.anchorMode :: tx.postConditionMode :: beBytes 4 tx.postConditions.length ++
    serAll serPostCondition tx.postConditions ++ serPayload tx.payload

/-! ### Deserialization -/

/-- Codec errors (spec §7 taxonomy, restricted to the decode-side members the
claims exercise; byte offsets are not modelled). -/
inductive CodecErr
  | truncated
  | unknownVariant (tag : Nat)
  | uncompressedKeyNotAllowed
  | invalidHex
  deriving DecidableEq, Repr

def readByteE (bs : List Nat) : Except CodecErr (Nat × List Nat) :=
  match bs with
  | [] => .error .truncated
  | b :: r => .ok (b, r)

def readBytesE (n : Nat) (bs : List Nat) : Except CodecErr (List Nat × List Nat) :=
  match readBytes n bs with
  | none => .error .truncated
  | some p => .ok p

/-- Read `w` bytes and take their big-endian value. -/
def parseBE (w : Nat) (bs : List Nat) : Except CodecErr (Nat × List Nat) :=
  match readBytes w bs with
  | none => .error .truncated
  | some (xs, r) => .ok (beVal xs, r)

/-- Sequencing of a parse step: propagate the error, otherwise feed the parsed
value and the remaining input to the continuation. -/
def step (m : Except CodecErr (α × List Nat)) (f : α → List Nat → Except CodecErr β) :
    Except CodecErr β :=
  match m with
  | .error e => .error e
  | .ok (a, r) => f a r

def parseLP8 (bs : List Nat) : Except CodecErr (List Nat × List Nat) :=
  step (readByteE bs) readBytesE

/-- Parse `n` consecutive occurrences of an element parser (the body of a
length-prefixed sequence). -/
def parseMany (p : List Nat → Except CodecErr (α × List Nat)) :
    Nat → List Nat → Except CodecErr (List α × List Nat)
  | 0, bs => .ok ([], bs)
  | n + 1, bs =>
      step (p bs) fun x r =>
        step (parseMany p n r) fun xs r2 => .ok (x :: xs, r2)

/-- Data length implied by an auth-field tag (kind, compression). -/
def fieldDataLen (kind : AuthFieldKind) (compressed : Bool) : Nat :=
  match kind, compressed with
  | .publicKey, true => 33
  | .publicKey, false => 65
  | .signature, _ => 65

/-- Decode one auth field: tag byte (kind + compression), then the payload of
the implied length. -/
def parseAuthField (bs : List Nat) : Except CodecErr (AuthField × List Nat) :=
  step (readByteE bs) fun tag r =>
    match tag with
    | 0 => step (readBytesE 33 r) fun data r2 => .ok (⟨true, .publicKey, data⟩, r2)
    | 1 => step (readBytesE 65 r) fun data r2 => .ok (⟨false, .publicKey, data⟩, r2)
    | 2 => step (readBytesE 65 r) fun data r2 => .ok (⟨true, .signature, data⟩, r2)
    | 3 => step (readBytesE 65 r) fun data r2 => .ok (⟨false, .signature, data⟩, r2)
    | t => .error (.unknownVariant t)

/-- Decode the body of a single-sig spending condition.  Spec §4.2: a
segwit-style single-sig mode rejects an uncompressed key encoding with
`UncompressedKeyNotAllowedError`. -/
def parseSingleBody (hm : SingleHashMode) (bs : List Nat) :
    Except CodecErr (SpendingCondition × List Nat) :=
  step (readBytesE 20 bs) fun signer r1 =>
  step (parseBE 8 r1) fun nonce r2 =>
  step (parseBE 8 r2) fun fee r3 =>
  step (readByteE r3) fun enc r4 =>
  match enc with
  | 0 =>
      step (readBytesE 65 r4) fun sig r5 =>
        .ok (.single ⟨hm, signer, nonce, fee, true, sig⟩, r5)
  | 1 =>
      if hm.requiresCompressed then .error .uncompressedKeyNotAllowed
      else
        step (readBytesE 65 r4) fun sig r5 =>
          .ok (.single ⟨hm, signer, nonce, fee, false, sig⟩, r5)
  | t => .error (.unknownVariant t)

/-- Decode the body of a multi-sig spending condition, including the trailing
required-signature count, and reject any uncompressed field under a
segwit-style hash mode (spec §4.2, exercised by the uncompressed-keys test). -/
def parseMultiBody (hm : MultiHashMode) (bs : List Nat) :
    Except CodecErr (SpendingCondition × List Nat) :=
  step (readBytesE 20 bs) fun signer r1 =>
  step (parseBE 8 r1) fun nonce r2 =>
  step (parseBE 8 r2) fun fee r3 =>
  step (parseBE 4 r3) fun cnt r4 =>
  step (parseMany parseAuthField cnt r4) fun fields r5 =>
  step (parseBE 2 r5) fun req r6 =>
  if hm.requiresCompressed && fields.any (fun f => !f.compressed) then
    .error .uncompressedKeyNotAllowed
  else .ok (.multi ⟨hm, signer, nonce, fee, fields, req⟩, r6)

/-- Decode a spending condition: hash-mode tag dispatch, then the matching
body (`UnknownVariantError` on an unrecognized tag). -/
def parseSpendingCondition (bs : List Nat) :
    Except CodecErr (SpendingCondition × List Nat) :=
  step (readByteE bs) fun tag r =>
  match tag with
  | 0 => parseSingleBody .p2pkh r
  | 2 => parseSingleBody .p2wpkh r
  | 1 => parseMultiBody .p2sh r
  | 3 => parseMultiBody .p2wsh r
  | 5 => parseMultiBody .p2shNonSeq r
  | t => .error (.unknownVariant t)

/-- Decode an authorization: auth-type tag 0x04 (standard, one condition) or
0x05 (sponsored, origin then sponsor condition). -/
def parseAuthorization (bs : List Nat) : Except CodecErr (Authorization × List Nat) :=
  step (readByteE bs) fun tag r =>
  match tag with
  | 4 => step (parseSpendingCondition r) fun o r2 => .ok (.standard o, r2)
  | 5 =>
      step (parseSpendingCondition r) fun o r2 =>
      step (parseSpendingCondition r2) fun s r3 => .ok (.sponsored o s, r3)
  | t => .error (.unknownVariant t)

/-- Decode a c32 address body: version byte then hash160. -/
def parseAddress (bs : List Nat) : Except CodecErr (Address × List Nat) :=
  step (readByteE bs) fun v r =>
  step (readBytesE 20 r) fun h160 r2 => .ok (⟨v, h160⟩, r2)

/-- Decode a Clarity value (modelled subset: uint 0x01, true 0x03, false 0x04,
standard principal 0x05, contract principal 0x06). -/
def parseClarityV (bs : List Nat) : Except CodecErr (ClarityV × List Nat) :=
  step (readByteE bs) fun tag r =>
  match tag with
  | 1 => step (parseBE 16 r) fun n r2 => .ok (.uintCV n, r2)
  | 3 => .ok (.trueCV, r)
  | 4 => .ok (.falseCV, r)
  | 5 => step (parseAddress r) fun a r2 => .ok (.standardPrincipalCV a, r2)
  | 6 =>
      step (parseAddress r) fun a r2 =>
      step (parseLP8 r2) fun nm r3 => .ok (.contractPrincipalCV a nm, r3)
  | t => .error (.unknownVariant t)

/-- Decode a post-condition principal: origin sentinel 0x01, standard 0x02,
contract 0x03. -/
def parsePCPrincipal (bs : List Nat) : Except CodecErr (PCPrincipal × List Nat) :=
  step (readByteE bs) fun tag r =>
  match tag with
  | 1 => .ok (.origin, r)
  | 2 => step (parseAddress r) fun a r2 => .ok (.standard a, r2)
  | 3 =>
      step (parseAddress r) fun a r2 =>
      step (parseLP8 r2) fun nm r3 => .ok (.contract a nm, r3)
  | t => .error (.unknownVariant t)

/-- Decode an asset descriptor: issuing address, contract name, asset name. -/
def parseAssetInfo (bs : List Nat) : Except CodecErr (AssetInfo × List Nat) :=
  step (parseAddress bs) fun a r1 =>
  step (parseLP8 r1) fun cn r2 =>
  step (parseLP8 r2) fun an r3 => .ok (⟨a, cn, an⟩, r3)

/-- Decode a post-condition: asset-class tag (STX 0x00, fungible 0x01,
non-fungible 0x02), then principal, asset descriptor where applicable,
condition code and amount. -/
def parsePostCondition (bs : List Nat) : Except CodecErr (PostCondition × List Nat) :=
  step (readByteE bs) fun tag r =>
  match tag with
  | 0 =>
      step (parsePCPrincipal r) fun p r1 =>
      step (readByteE r1) fun code r2 =>
      step (parseBE 8 r2) fun amt r3 => .ok (.stx p code amt, r3)
  | 1 =>
      step (parsePCPrincipal r) fun p r1 =>
      step (parseAssetInfo r1) fun a r2 =>
      step (readByteE r2) fun code r3 =>
      step (parseBE 8 r3) fun amt r4 => .ok (.fungible p a code amt, r4)
  | 2 =>
      step (parsePCPrincipal r) fun p r1 =>
      step (parseAssetInfo r1) fun a r2 =>
      step (parseClarityV r2) fun v r3 =>
      step (readByteE r3) fun code r4 => .ok (.nonFungible p a v code, r4)
  | t => .error (.unknownVariant t)

def parseLP32 (bs : List Nat) : Except CodecErr (List Nat × List Nat) :=
  step (parseBE 4 bs) readBytesE

/-- Decode a payload: payload-type tag dispatch (TokenTransfer 0x00,
SmartContract 0x01, ContractCall 0x02, VersionedSmartContract 0x06), then the
variant-specific encoding.  The token-transfer memo is a fixed 34-byte field. -/
def parsePayload (bs : List Nat) : Except CodecErr (Payload × List Nat) :=
  step (readByteE bs) fun tag r =>
  match tag with
  | 0 =>
      step (parseClarityV r) fun recipient r1 =>
      step (parseBE 8 r1) fun amt r2 =>
      step (readBytesE 34 r2) fun memo r3 => .ok (.tokenTransfer recipient amt memo, r3)
  | 1 =>
      step (parseLP8 r) fun name r1 =>
      step (parseLP32 r1) fun code r2 => .ok (.smartContract name code, r2)
  | 6 =>
      step (readByteE r) fun ver r1 =>
      step (parseLP8 r1) fun name r2 =>
      step (parseLP32 r2) fun code r3 => .ok (.versionedSmartContract ver name code, r3)
  | 2 =>
      step (parseAddress r) fun addr r1 =>
      step (parseLP8 r1) fun cname r2 =>
      step (parseLP8 r2) fun fname r3 =>
      step (parseBE 4 r3) fun cnt r4 =>
      step (parseMany parseClarityV cnt r4) fun args r5 =>
        .ok (.contractCall addr cname fname args, r5)
  | t => .error (.unknownVariant t)

/-- Decode a transaction envelope: version byte, 4-byte chain id,
authorization, anchor mode (must be 1, 2 or 3), post-condition mode (must be
1 or 2), length-prefixed post-condition list, payload. -/
def parseTransaction (bs : List Nat) :
    Except CodecErr (StacksTransaction × List Nat) :=
  step (readByteE bs) fun ver r1 =>
  step (parseBE 4 r1) fun chainId r2 =>
  step (parseAuthorization r2) fun auth r3 =>
  step (readByteE r3) fun anchor r4 =>
  if anchor = 1 ∨ anchor = 2 ∨ anchor = 3 then
    step (readByteE r4) fun pcm r5 =>
    if pcm = 1 ∨ pcm = 2 then
      step (parseBE 4 r5) fun cnt r6 =>
      step (parseMany parsePostCondition cnt r6) fun pcs r7 =>
      step (parsePayload r7) fun pl r8 =>
        .ok (⟨ver, chainId, auth, anchor, pcm, pcs, pl⟩, r8)
    else .error (.unknownVariant pcm)
  else .error (.unknownVariant anchor)

/-- `deserializeTransaction` on a byte input: parse from the front of the
stream; input held by a reader may keep trailing data, which is left unread. -/
def deserializeTransactionBytes (bs : List Nat) : Except CodecErr StacksTransaction :=
  (parseTransaction bs).map Prod.fst

/-- Strip one leading `0x` marker from a hexadecimal string, if present. -/
def stripHexMarker (s : List Char) : List Char :=
  match s with
  | c1 :: c2 :: rest => if c1 = '0' ∧ c2 = 'x' then rest else c1 :: c2 :: rest
  | other => other

/-- `deserializeTransaction` on a hexadecimal string input (spec §6: the codec
accepts hex with and without a `0x` marker transparently). -/
def deserializeTransactionHex (s : List Char) : Except CodecErr StacksTransaction :=
  match hexCharsToBytes (stripHexMarker s) with
  | none => .error .invalidHex
  | some bs => deserializeTransactionBytes bs

/-- `transaction.serialize()` / `transactionToHex`: lowercase hex of the
serialized bytes, without a `0x` marker. -/
def serializeTransactionHex (tx : StacksTransaction) : List Char :=
  bytesToHexChars (serializeTransaction tx)

/-! ### Transaction-level operations

Modelled from the spec: `transaction.ts`, `authorization.ts`, `signer.ts` and
`keys.ts` are not among the provided sources.  The cryptographic collaborators
(public-key derivation from a private key, recoverable signing, signer-hash
derivation) are abstract parameters collected in `CryptoEnv`. -/

/-- Error taxonomy of spec §7 (the members the claims exercise). -/
inductive TxError
  | uncompressedKeyNotAllowed
  | addressMismatch
  | notMultiSig
  | signatureVerification
  | notSponsored
  deriving DecidableEq, Repr

instance {ε α : Type} [DecidableEq ε] [DecidableEq α] : DecidableEq (Except ε α) :=
  fun a b =>
    match a, b with
    | .error e1, .error e2 =>
        if h : e1 = e2 then .isTrue (by rw [h])
        else .isFalse (by intro hh; cases hh; exact h rfl)
    | .error _, .ok _ => .isFalse (by intro hh; cases hh)
    | .ok _, .error _ => .isFalse (by intro hh; cases hh)
    | .ok a1, .ok a2 =>
        if h : a1 = a2 then .isTrue (by rw [h])
        else .isFalse (by intro hh; cases hh; exact h rfl)

/-- Hex-decoded byte content of a hex public-key string
(`createStacksPublicKey`). -/
def keyBytes (s : String) : List Nat := (hexCharsToBytes s.data).getD []

/-- `publicKeyIsCompressed`: an uncompressed SEC1 key starts with byte 0x04. -/
def publicKeyIsCompressed (k : List Nat) : Bool := !(k.head? == some 4)

/-- Abstract external cryptographic collaborators (spec §1: out-of-scope
helpers used through their results only). -/
structure CryptoEnv where
  priv2pub : String → String
  sign : String → StacksTransaction → List Nat
  sigCompressed : String → Bool
  multiSigHash : MultiHashMode → Nat → List (List Nat) → List Nat
  singleSigHash : SingleHashMode → List Nat → List Nat
  recover : AuthField → List Nat

/-- Modelled from the spec (§4.2): a single-sig spending condition with the
signer hash derived from the one public key, an empty (all-zero) signature
slot and the key-encoding flag taken from the key's compression. -/
def createSingleSigSpendingCondition (env : CryptoEnv) (hm : SingleHashMode)
    (pubKey : String) (nonce fee : Nat) : SingleSigSC :=
  ⟨hm, env.singleSigHash hm (keyBytes pubKey), nonce, fee,
    publicKeyIsCompressed (keyBytes pubKey), List.replicate 65 0⟩

/-- Modelled from the spec (§4.2 and the uncompressed-keys test):
`createMultiSigSpendingCondition` derives the signer hash from
(requiredSigs, keys in the supplied order, hash mode); a segwit-style hash
mode rejects any uncompressed key with `UncompressedKeyNotAllowedError`
(source message: `Public keys must be compressed for segwit`). -/
def createMultiSigSpendingCondition (env : CryptoEnv) (hashMode : MultiHashMode)
    (numSigs : Nat) (pubKeys : List String) (nonce fee : Nat) :
    Except TxError MultiSigSC :=
  let keys := pubKeys.map keyBytes
  if hashMode.requiresCompressed && keys.any (fun k => !publicKeyIsCompressed k) then
    .error .uncompressedKeyNotAllowed
  else .ok ⟨hashMode, env.multiSigHash hashMode numSigs keys, nonce, fee, [], numSigs⟩

def createStandardAuth (sc : SpendingCondition) : Authorization := .standard sc

/-- Placeholder sponsor condition attached by `createSponsoredAuth` before the
real sponsor is set (all-zero signer, fee 0, nonce 0, empty signature). -/
def emptySponsorSC : SpendingCondition :=
  .single ⟨.p2pkh, List.replicate 20 0, 0, 0, true, List.replicate 65 0⟩

def createSponsoredAuth (sc : SpendingCondition) : Authorization :=
  .sponsored sc emptySponsorSC

def SpendingCondition.withFee : SpendingCondition → Nat → SpendingCondition
  | .single c, f => .single { c with fee := f }
  | .multi c, f => .multi { c with fee := f }

def SpendingCondition.withNonce : SpendingCondition → Nat → SpendingCondition
  | .single c, n => .single { c with nonce := n }
  | .multi c, n => .multi { c with nonce := n }

/-- Modelled from the spec (§3): `setFee` rewrites the active spending
condition's fee — the origin condition of a standard authorization, the
sponsor condition (which pays the fee) of a sponsored one. -/
def Authorization.setFee : Authorization → Nat → Authorization
  | .standard o, f => .standard (o.withFee f)
  | .sponsored o s, f => .sponsored o (s.withFee f)

/-- Modelled from the spec (§3): `setNonce` rewrites the origin condition's
nonce. -/
def Authorization.setNonce : Authorization → Nat → Authorization
  | .standard o, n => .standard (o.withNonce n)
  | .sponsored o s, n => .sponsored (o.withNonce n) s

def StacksTransaction.setFee (tx : StacksTransaction) (f : Nat) : StacksTransaction :=
  { tx with auth := tx.auth.setFee f }

def StacksTransaction.setNonce (tx : StacksTransaction) (n : Nat) : StacksTransaction :=
  { tx with auth := tx.auth.setNonce n }

/-- Modelled from the spec (§4.3): `signOrigin` produces a recoverable
signature through the signing collaborator and appends it — it fills the one
slot of a single-sig origin condition and appends one signature-tagged auth
field to a multi-sig origin condition. -/
def signOrigin (env : CryptoEnv) (privKey : String) (tx : StacksTransaction) :
    StacksTransaction :=
  let sig := env.sign privKey tx
  let comp := env.sigCompressed privKey
  let upd : SpendingCondition → SpendingCondition := fun sc =>
    match sc with
    | .single c => .single { c with keyEncodingCompressed := comp, signature := sig }
    | .multi c => .multi { c with fields := c.fields ++ [⟨comp, .signature, sig⟩] }
  { tx with
    auth := match tx.auth with
      | .standard o => .standard (upd o)
      | .sponsored o s => .sponsored (upd o) s }

/-- Modelled from the spec (§4.3): `appendOrigin` appends a bare
public-key-tagged field to a multi-sig origin condition without signing (the
source throws on a single-sig condition; the builder path below only reaches
this after its multi-sig guard). -/
def appendOrigin (pubKey : String) (tx : StacksTransaction) : StacksTransaction :=
  let k := keyBytes pubKey
  let upd : SpendingCondition → SpendingCondition := fun sc =>
    match sc with
    | .single c => .single c
    | .multi c =>
        .multi { c with fields := c.fields ++ [⟨publicKeyIsCompressed k, .publicKey, k⟩] }
  { tx with
    auth := match tx.auth with
      | .standard o => .standard (upd o)
      | .sponsored o s => .sponsored (upd o) s }

/-- Modelled from the spec (§4.3): `verifyOrigin` rejects a key that violates
the hash mode's compression requirement with `UncompressedKeyNotAllowedError`,
requires at least the required number of signature fields, and compares the
signer hash recomputed from the recovered/declared keys with the stored one
(`SignatureVerificationError` on mismatch). -/
def verifySingleSC (env : CryptoEnv) (c : SingleSigSC) : Except TxError Unit :=
  if c.hashMode.requiresCompressed && !c.keyEncodingCompressed then
    .error .uncompressedKeyNotAllowed
  else if env.singleSigHash c.hashMode
      (env.recover ⟨c.keyEncodingCompressed, .signature, c.signature⟩) = c.signer then
    .ok ()
  else .error .signatureVerification

def verifyMultiSC (env : CryptoEnv) (c : MultiSigSC) : Except TxError Unit :=
  if c.hashMode.requiresCompressed && c.fields.any (fun f => !f.compressed) then
    .error .uncompressedKeyNotAllowed
  else if (c.fields.filter (fun f => f.kind == .signature)).length
      < c.signaturesRequired then
    .error .signatureVerification
  else
    let keys := c.fields.map fun f =>
      match f.kind with
      | .publicKey => f.data
      | .signature => env.recover f
    if env.multiSigHash c.hashMode c.signaturesRequired keys = c.signer then .ok ()
    else .error .signatureVerification

def verifyOrigin (env : CryptoEnv) (tx : StacksTransaction) : Except TxError Unit :=
  match tx.auth.spendingCondition with
  | .single c => verifySingleSC env c
  | .multi c => verifyMultiSC env c

/-! ### Builders (`src/packages/transactions/src/builders.ts`)

This layer is embedded from the provided source.  Public keys and private
keys are hex strings, as in the source; the c32 address codec and the
fee/nonce network collaborators are abstract (spec §1/§6: external), so the
multi-sig `address` option is carried as its decoded hash160 and the
fee/nonce lookups are function parameters whose invocations are logged. -/

/-- JavaScript's default `Array.prototype.sort` comparator on strings:
lexicographic by UTF-16 code unit. -/
def charListLe : List Char → List Char → Bool
  | [], _ => true
  | _ :: _, [] => false
  | x :: xs, y :: ys =>
      if x.toNat < y.toNat then true
      else if y.toNat < x.toNat then false
      else charListLe xs ys

def strLe (a b : String) : Bool := charListLe a.data b.data

def insertSorted (x : String) : List String → List String
  | [] => [x]
  | y :: t => if strLe x y then x :: y :: t else y :: insertSorted x t

/-- `publicKeys.slice().sort()`: a stable lexicographic sort of the key
strings (insertion sort; on a total order any correct sort agrees). -/
def jsSort (xs : List String) : List String := xs.foldr insertSorted []

/-- `sortPublicKeysForAddress` (builders.ts): derive the multi-sig address
hash from the keys as supplied; if it differs from the target hash, retry
with the keys sorted; if neither matches, fail
(`Failed to find matching multi-sig address given public-keys.`). -/
def sortPublicKeysForAddress (env : CryptoEnv) (publicKeys : List String)
    (numSigs : Nat) (hashMode : MultiHashMode) (hash : List Nat) :
    Except TxError (List String) :=
  let hashUnsorted := env.multiSigHash hashMode numSigs (publicKeys.map keyBytes)
  if hashUnsorted = hash then .ok publicKeys
  else
    let publicKeysSorted := jsSort publicKeys
    let hashSorted := env.multiSigHash hashMode numSigs (publicKeysSorted.map keyBytes)
    if hashSorted = hash then .ok publicKeysSorted
    else .error .addressMismatch

/-- `mutatingSignAppendMultiSig` (builders.ts): reject a single-sig
transaction; reconcile the key order against the optional target address;
then, in public-key order, sign with the matching signer key when one exists
and append the bare public key otherwise. -/
def mutatingSignAppendMultiSig (env : CryptoEnv) (tx : StacksTransaction)
    (publicKeys signerKeys : List String) (address : Option (List Nat)) :
    Except TxError StacksTransaction :=
  match tx.auth.spendingCondition with
  | .single _ => .error .notMultiSig
  | .multi c =>
      (match address with
        | some hash =>
            sortPublicKeysForAddress env publicKeys c.signaturesRequired c.hashMode hash
        | none => .ok publicKeys).map fun (pubs : List String) =>
        pubs.foldl
          (fun t pk =>
            match signerKeys.find? (fun key => env.priv2pub key == pk) with
            | some signerKey => signOrigin env signerKey t
            | none => appendOrigin pk t)
          tx

/-- Network profile (from `@stacks/network` / `constants.ts`): transaction
version and chain id per epoch, plus the c32 address version bytes. -/
structure StacksNetwork where
  transactionVersion : Nat
  chainId : Nat
  addressVersionSingleSig : Nat
  addressVersionMultiSig : Nat
  deriving DecidableEq, Repr

def STACKS_MAINNET : StacksNetwork := ⟨0x00, 0x00000001, 22, 20⟩

def STACKS_TESTNET : StacksNetwork := ⟨0x80, 0x80000000, 26, 21⟩

/-- `AnchorMode.Any` (0x03). -/
def anchorModeAny : Nat := 3

/-- `PostConditionMode.Deny` (0x02). -/
def postConditionModeDeny : Nat := 2

/-- The single-sig / multi-sig half of an unsigned builder's options record
(`publicKey` vs `numSignatures`/`publicKeys`/`address`/
`useNonSequentialMultiSig`); the multi-sig `address` carries its decoded
hash160. -/
inductive SignerSpec
  | single (publicKey : String)
  | multi (numSignatures : Nat) (publicKeys : List String)
      (address : Option (List Nat)) (useNonSequentialMultiSig : Bool)
  deriving DecidableEq, Repr

/-- One invocation of an external estimation collaborator (spec §6): the fee
estimator receives the transaction; the nonce lookup receives the c32 address,
recorded here as the (address version, signer hash160) pair it is built from. -/
inductive CollabCall
  | estimateFee (transaction : StacksTransaction)
  | getNonce (addressVersion : Nat) (signerHash : List Nat)
  deriving DecidableEq, Repr

/-- Modelled from the spec (§3, `payload.ts` not among the provided sources):
the token-transfer payload stores the memo right-padded with zeros to its
fixed 34-byte wire size. -/
def createTokenTransferPayload (recipient : ClarityV) (amount : Nat)
    (memo : List Nat) : Payload :=
  .tokenTransfer recipient amount (memo ++ List.replicate (34 - memo.length) 0)

/-- Modelled from the spec (`payload.ts` not among the provided sources): a
smart-contract payload, versioned when a Clarity version is given. -/
def createSmartContractPayload (name code : List Nat) (clarityVersion : Option Nat) :
    Payload :=
  match clarityVersion with
  | some v => .versionedSmartContract v name code
  | none => .smartContract name code

/-- The single/multi-sig spending-condition dispatch block shared verbatim by
the three unsigned builders (builders.ts): one public key → P2PKH single-sig
condition; a key set → sequential or non-sequential P2SH multi-sig condition,
the key order reconciled against the target address when one was supplied. -/
def buildSpendingCondition (env : CryptoEnv) (signer : SignerSpec) (nonce fee : Nat) :
    Except TxError SpendingCondition :=
  match signer with
  | .single publicKey =>
      .ok (.single (createSingleSigSpendingCondition env .p2pkh publicKey nonce fee))
  | .multi numSignatures publicKeys address nonSeq =>
      let hashMode := if nonSeq then MultiHashMode.p2shNonSeq else MultiHashMode.p2sh
      (match address with
        | some hash =>
            sortPublicKeysForAddress env publicKeys numSignatures hashMode hash
        | none => .ok publicKeys).bind fun (pubs : List String) =>
        (createMultiSigSpendingCondition env hashMode numSignatures pubs nonce fee).map
          SpendingCondition.multi

/-- The fee/nonce finalization block shared verbatim by the unsigned builders
(builders.ts): when the caller supplied no fee, ask the fee estimator and
`setFee` the result; when no nonce, build the lookup address from the
network's **single-sig** address version and the origin condition's signer
hash, ask the nonce collaborator and `setNonce` the result.  The collaborator
invocations are returned alongside the transaction. -/
def finalizeFeeNonce (feeEst : StacksTransaction → Nat)
    (nonceAt : Nat → List Nat → Nat) (optFee optNonce : Option Nat)
    (network : StacksNetwork) (tx0 : StacksTransaction) :
    StacksTransaction × List CollabCall :=
  let p1 :=
    match optFee with
    | none => (tx0.setFee (feeEst tx0), [CollabCall.estimateFee tx0])
    | some _ => (tx0, ([] : List CollabCall))
  let p2 :=
    match optNonce with
    | none =>
        let v := network.addressVersionSingleSig
        let h := p1.1.auth.spendingCondition.signer
        (p1.1.setNonce (nonceAt v h), [CollabCall.getNonce v h])
    | some _ => (p1.1, ([] : List CollabCall))
  (p2.1, p1.2 ++ p2.2)

/-- Common option fields of a token transfer (builders.ts
`TokenTransferOptions`); the memo is carried as raw bytes. -/
structure TokenTransferOptions where
  recipient : ClarityV
  amount : Nat
  fee : Option Nat
  nonce : Option Nat
  network : Option StacksNetwork
  memo : Option (List Nat)
  sponsored : Option Bool
  deriving DecidableEq, Repr

/-- `makeUnsignedSTXTokenTransfer` (builders.ts): apply the documented
defaults (fee 0, nonce 0, mainnet, empty memo, not sponsored), build the
payload and the spending condition, wrap into an envelope with anchor mode
Any and **no post-conditions** (SIP-005), then run the conditional fee/nonce
estimation. -/
def makeUnsignedSTXTokenTransfer (env : CryptoEnv)
    (feeEst : StacksTransaction → Nat) (nonceAt : Nat → List Nat → Nat)
    (o : TokenTransferOptions) (signer : SignerSpec) :
    Except TxError (StacksTransaction × List CollabCall) :=
  let fee := o.fee.getD 0
  let nonce := o.nonce.getD 0
  let network := o.network.getD STACKS_MAINNET
  let memo := o.memo.getD []
  let sponsored := o.sponsored.getD false
  let payload := createTokenTransferPayload o.recipient o.amount memo
  (buildSpendingCondition env signer nonce fee).map fun (cond : SpendingCondition) =>
    let auth := if sponsored then createSponsoredAuth cond else createStandardAuth cond
    let tx0 : StacksTransaction :=
      ⟨network.transactionVersion, network.chainId, auth, anchorModeAny,
        postConditionModeDeny, [], payload⟩
    finalizeFeeNonce feeEst nonceAt o.fee o.nonce network tx0

/-- Option fields of a contract deploy (builders.ts
`BaseContractDeployOptions`); names and code are carried as raw bytes. -/
structure ContractDeployOptions where
  contractName : List Nat
  codeBody : List Nat
  clarityVersion : Option Nat
  fee : Option Nat
  nonce : Option Nat
  network : Option StacksNetwork
  postConditionMode : Option Nat
  postConditions : Option (List PostCondition)
  sponsored : Option Bool
  deriving DecidableEq, Repr

/-- `makeUnsignedContractDeploy` (builders.ts): defaults fee 0, nonce 0,
mainnet, post-condition mode Deny, not sponsored, Clarity version 2; build
the smart-contract payload and the spending condition, wrap with the caller's
post-conditions, then run the conditional fee/nonce estimation. -/
def makeUnsignedContractDeploy (env : CryptoEnv)
    (feeEst : StacksTransaction → Nat) (nonceAt : Nat → List Nat → Nat)
    (o : ContractDeployOptions) (signer : SignerSpec) :
    Except TxError (StacksTransaction × List CollabCall) :=
  let fee := o.fee.getD 0
  let nonce := o.nonce.getD 0
  let network := o.network.getD STACKS_MAINNET
  let clarityVersion := o.clarityVersion.getD 2
  let payload := createSmartContractPayload o.contractName o.codeBody (some clarityVersion)
  let sponsored := o.sponsored.getD false
  (buildSpendingCondition env signer nonce fee).map fun (cond : SpendingCondition) =>
    let auth := if sponsored then createSponsoredAuth cond else createStandardAuth cond
    let tx0 : StacksTransaction :=
      ⟨network.transactionVersion, network.chainId, auth, anchorModeAny,
        o.postConditionMode.getD postConditionModeDeny, o.postConditions.getD [],
        payload⟩
    finalizeFeeNonce feeEst nonceAt o.fee o.nonce network tx0

/-- Option fields of a contract call (builders.ts `ContractCallOptions`);
ABI fetching/validation is an external collaborator (spec §1/§6) and is not
modelled. -/
structure ContractCallOptions where
  contractAddress : Address
  contractName : List Nat
  functionName : List Nat
  functionArgs : List ClarityV
  fee : Option Nat
  nonce : Option Nat
  network : Option StacksNetwork
  postConditionMode : Option Nat
  postConditions : Option (List PostCondition)
  sponsored : Option Bool
  deriving DecidableEq, Repr

/-- `makeUnsignedContractCall` (builders.ts): defaults fee 0, nonce 0,
mainnet, post-condition mode Deny, not sponsored; build the contract-call
payload and the spending condition, wrap, then run the conditional fee/nonce
estimation. -/
def makeUnsignedContractCall (env : CryptoEnv)
    (feeEst : StacksTransaction → Nat) (nonceAt : Nat → List Nat → Nat)
    (o : ContractCallOptions) (signer : SignerSpec) :
    Except TxError (StacksTransaction × List CollabCall) :=
  let fee := o.fee.getD 0
  let nonce := o.nonce.getD 0
  let network := o.network.getD STACKS_MAINNET
  let payload := Payload.contractCall o.contractAddress o.contractName
    o.functionName o.functionArgs
  let sponsored := o.sponsored.getD false
  (buildSpendingCondition env signer nonce fee).map fun (cond : SpendingCondition) =>
    let auth := if sponsored then createSponsoredAuth cond else createStandardAuth cond
    let tx0 : StacksTransaction :=
      ⟨network.transactionVersion, network.chainId, auth, anchorModeAny,
        o.postConditionMode.getD postConditionModeDeny, o.postConditions.getD [],
        payload⟩
    finalizeFeeNonce feeEst nonceAt o.fee o.nonce network tx0

/-- The signing half of a signed builder's options (`senderKey` vs multi-sig
`signerKeys` etc.). -/
inductive SignedSignerSpec
  | single (senderKey : String)
  | multi (numSignatures : Nat) (publicKeys : List String) (signerKeys : List String)
      (address : Option (List Nat)) (useNonSequentialMultiSig : Bool)
  deriving DecidableEq, Repr

/-- `makeSTXTokenTransfer` (builders.ts): single-sig — derive the public key
from the sender key, build unsigned, sign the origin; multi-sig — build
unsigned, then sign/append in public-key order. -/
def makeSTXTokenTransfer (env : CryptoEnv)
    (feeEst : StacksTransaction → Nat) (nonceAt : Nat → List Nat → Nat)
    (o : TokenTransferOptions) (s : SignedSignerSpec) :
    Except TxError (StacksTransaction × List CollabCall) :=
  match s with
  | .single senderKey =>
      (makeUnsignedSTXTokenTransfer env feeEst nonceAt o
        (.single (env.priv2pub senderKey))).map
        fun (p : StacksTransaction × List CollabCall) =>
          (signOrigin env senderKey p.1, p.2)
  | .multi n pks sks addr nonSeq =>
      (makeUnsignedSTXTokenTransfer env feeEst nonceAt o (.multi n pks addr nonSeq)).bind
        fun (p : StacksTransaction × List CollabCall) =>
          (mutatingSignAppendMultiSig env p.1 pks sks addr).map
            fun (tx : StacksTransaction) => (tx, p.2)

/-! ### Claim theorems -/

set_option maxRecDepth 10000

/-- A concrete single-sig testnet token-transfer envelope with one STX
post-condition (shaped after the serialization test's fixture). -/
def txA : StacksTransaction :=
  ⟨0x80, 0x80000000,
    .standard (.single ⟨.p2pkh, List.replicate 20 5, 0, 0, true, List.replicate 65 7⟩),
    3, 2,
    [.stx (.standard ⟨22, List.replicate 20 9⟩) 3 0],
    .tokenTransfer (.standardPrincipalCV ⟨22, List.replicate 20 9⟩) 2500000
      (List.replicate 34 0)⟩

/-- A concrete crypto environment for witnesses: derived public key appends
`"P"`, the multi-sig hash is the signature count followed by the concatenated
key bytes (order-sensitive), signatures are 65 one-bytes. -/
def envW : CryptoEnv :=
  ⟨fun s => s ++ "P",
    fun _ _ => List.replicate 65 1,
    fun _ => true,
    fun _ n ks => n :: ks.foldl (fun a k => a ++ k) [],
    fun _ _ => List.replicate 20 3,
    fun _ => List.replicate 33 2⟩

/-- Does an authorization carry a sponsor condition? -/
def Authorization.isSponsored : Authorization → Bool
  | .standard _ => false
  | .sponsored _ _ => true

/-- Was a single public key (vs a key set plus threshold) supplied? -/
def SignerSpec.isSingle : SignerSpec → Bool
  | .single _ => true
  | .multi _ _ _ _ => false

/-- The spending condition whose fee `setFee` rewrites (spec §3: the origin
condition of a standard authorization, the fee-paying sponsor condition of a
sponsored one). -/
def Authorization.activeSpendingCondition : Authorization → SpendingCondition
  | .standard o => o
  | .sponsored _ s => s

/-- Structural validity of a condition without the key-compression rule. -/
def wfSpendingConditionCore : SpendingCondition → Prop
  | .single c => wfSingleSigSCCore c
  | .multi c => wfMultiSigSCCore c

def wfAuthorizationCore : Authorization → Prop
  | .standard o => wfSpendingConditionCore o
  | .sponsored o s => wfSpendingConditionCore o ∧ wfSpendingConditionCore s

/-- Structural validity of an envelope without the key-compression rule —
what a forcibly mutated transaction of the uncompressed-keys test still
satisfies. -/
def wfTransactionCore (tx : StacksTransaction) : Prop :=
  tx.version < 256 ∧ tx.chainId < 2 ^ 32 ∧ wfAuthorizationCore tx.auth ∧
    (tx.anchorMode = 1 ∨ tx.anchorMode = 2 ∨ tx.anchorMode = 3) ∧
    (tx.postConditionMode = 1 ∨ tx.postConditionMode = 2) ∧
    tx.postConditions.length < 2 ^ 32 ∧
    (∀ pc ∈ tx.postConditions, wfPostCondition pc) ∧
    wfPayload tx.payload

instance (sc : SpendingCondition) : Decidable (wfSpendingConditionCore sc) := by
  cases sc <;> (unfold wfSpendingConditionCore; infer_instance)

instance (a : Authorization) : Decidable (wfAuthorizationCore a) := by
  cases a <;> (unfold wfAuthorizationCore; infer_instance)

instance (tx : StacksTransaction) : Decidable (wfTransactionCore tx) := by
  unfold wfTransactionCore; infer_instance

/-- An uncompressed (0x04-style) 65-byte public key as a hex string. -/
def uncompressedKeyW : String :=
  "04" ++ String.mk (List.replicate 128 'a')

/-- A multi-sig condition forcibly mutated to the segwit hash mode while
holding an uncompressed public-key field. -/
def mutatedSCW : MultiSigSC :=
  ⟨.p2wsh, List.replicate 20 3, 0, 0,
    [⟨false, .publicKey, 4 :: List.replicate 64 10⟩], 2⟩

def mutatedTxW : StacksTransaction :=
  ⟨0, 1, .standard (.multi mutatedSCW), 3, 2, [],
    .tokenTransfer (.standardPrincipalCV ⟨22, List.replicate 20 9⟩) 5
      (List.replicate 34 0)⟩

/-! ### Theorems -/

theorem beBytes_length (w n : Nat) : (beBytes w n).length = w := by
  induction w generalizing n with
  | zero => rfl
  | succ w ih => simp [beBytes, ih]

theorem beVal_foldl (c : Nat) (bs : List Nat) :
    bs.foldl (fun a b => a * 256 + b) c = c * 256 ^ bs.length + beVal bs := by
  induction bs generalizing c with
  | nil => simp [beVal]
  | cons x xs ih =>
      show xs.foldl _ (c * 256 + x) = _
      rw [ih (c * 256 + x)]
      have hx : beVal (x :: xs) = x * 256 ^ xs.length + beVal xs := by
        show xs.foldl _ (0 * 256 + x) = _
        rw [ih (0 * 256 + x)]; ring
      rw [hx]
      simp [List.length_cons, pow_succ]
      ring

theorem beVal_cons (b : Nat) (bs : List Nat) :
    beVal (b :: bs) = b * 256 ^ bs.length + beVal bs := by
  show bs.foldl _ (0 * 256 + b) = _
  rw [beVal_foldl]; ring

theorem beVal_beBytes (w n : Nat) : beVal (beBytes w n) = n % 256 ^ w := by
  induction w generalizing n with
  | zero => simp [beBytes, beVal, Nat.mod_one]
  | succ w ih =>
      rw [beBytes, beVal_cons, ih, beBytes_length, Nat.mod_mod_of_dvd _ dvd_rfl,
        pow_succ, Nat.mod_mul]
      ring

theorem beVal_lt (bs : List Nat) (h : bytesOk bs) : beVal bs < 256 ^ bs.length := by
  induction bs with
  | nil => simp [beVal]
  | cons b t ih =>
      rw [beVal_cons]
      have hb : b < 256 := h b (List.mem_cons_self b t)
      have ht : beVal t < 256 ^ t.length := ih fun x hx => h x (List.mem_cons_of_mem b hx)
      have hp : (0:Nat) < 256 ^ t.length := pow_pos (by norm_num) _
      simp only [List.length_cons, pow_succ]
      nlinarith

theorem beBytes_beVal (bs : List Nat) (h : bytesOk bs) :
    beBytes bs.length (beVal bs) = bs := by
  induction bs with
  | nil => rfl
  | cons b t ih =>
      have hb : b < 256 := h b (List.mem_cons_self b t)
      have htO : bytesOk t := fun x hx => h x (List.mem_cons_of_mem b hx)
      have ht : beVal t < 256 ^ t.length := beVal_lt t htO
      simp only [List.length_cons, beBytes, beVal_cons, List.cons.injEq]
      constructor
      · rw [mul_comm, Nat.mul_add_div (pow_pos (by norm_num) _),
          Nat.div_eq_of_lt ht, Nat.add_zero, Nat.mod_eq_of_lt hb]
      · rw [mul_comm, Nat.mul_add_mod, Nat.mod_eq_of_lt ht]
        exact ih htO

theorem bytesOk_beBytes (w n : Nat) : bytesOk (beBytes w n) := by
  induction w generalizing n with
  | zero => intro b hb; simp [beBytes] at hb
  | succ w ih =>
      intro b hb
      simp only [beBytes, List.mem_cons] at hb
      rcases hb with h | h
      · omega
      · exact ih _ b h

theorem bytesOk_append {xs ys : List Nat} (hx : bytesOk xs) (hy : bytesOk ys) :
    bytesOk (xs ++ ys) := by
  intro b hb
  rcases List.mem_append.1 hb with h | h
  · exact hx b h
  · exact hy b h

theorem bytesOk_of_append_left {xs ys : List Nat} (h : bytesOk (xs ++ ys)) : bytesOk xs :=
  fun b hb => h b (List.mem_append.2 (Or.inl hb))

theorem bytesOk_of_append_right {xs ys : List Nat} (h : bytesOk (xs ++ ys)) : bytesOk ys :=
  fun b hb => h b (List.mem_append.2 (Or.inr hb))

theorem readBytes_append (xs r : List Nat) :
    readBytes xs.length (xs ++ r) = some (xs, r) := by
  unfold readBytes
  rw [if_neg (by simp)]
  rw [List.take_left, List.drop_left]

theorem readBytes_eq {n : Nat} {bs xs r : List Nat}
    (h : readBytes n bs = some (xs, r)) : bs = xs ++ r ∧ xs.length = n := by
  unfold readBytes at h
  by_cases hl : bs.length < n
  · simp [hl] at h
  · rw [if_neg hl] at h
    obtain ⟨h1, h2⟩ := Prod.mk.injEq .. ▸ Option.some.injEq .. ▸ h
    cases h1; cases h2
    exact ⟨(List.take_append_drop n bs).symm, List.length_take_of_le (by omega)⟩

theorem hexDigitVal_hexDigitChar {n : Nat} (h : n < 16) :
    hexDigitVal (hexDigitChar n) = some n := by
  interval_cases n <;> decide

theorem hexCharsToBytes_bytesToHexChars (bs : List Nat) (h : bytesOk bs) :
    hexCharsToBytes (bytesToHexChars bs) = some bs := by
  induction bs with
  | nil => rfl
  | cons b t ih =>
      have hb : b < 256 := h b (List.mem_cons_self b t)
      have ht := ih fun x hx => h x (List.mem_cons_of_mem b hx)
      show hexCharsToBytes (hexDigitChar (b / 16) :: hexDigitChar (b % 16) :: bytesToHexChars t)
        = some (b :: t)
      rw [hexCharsToBytes, hexDigitVal_hexDigitChar (by omega),
        hexDigitVal_hexDigitChar (Nat.mod_lt _ (by norm_num))]
      simp only [Option.bind_eq_bind, Option.some_bind, ht]
      rw [Nat.div_add_mod]

theorem serAll_cons (ser : α → List Nat) (x : α) (xs : List α) :
    serAll ser (x :: xs) = ser x ++ serAll ser xs := rfl

theorem step_ok (a : α) (r : List Nat) (f : α → List Nat → Except CodecErr β) :
    step (.ok (a, r)) f = f a r := rfl

theorem step_eq_ok {m : Except CodecErr (α × List Nat)}
    {f : α → List Nat → Except CodecErr β} {b : β}
    (h : step m f = .ok b) : ∃ a r, m = .ok (a, r) ∧ f a r = .ok b := by
  cases m with
  | error e => exact absurd h (by simp [step])
  | ok p => exact ⟨p.1, p.2, rfl, h⟩

theorem readByteE_cons (b : Nat) (r : List Nat) : readByteE (b :: r) = .ok (b, r) := rfl

theorem readByteE_eq {bs r : List Nat} {b : Nat} (h : readByteE bs = .ok (b, r)) :
    bs = b :: r := by
  cases bs with
  | nil => exact absurd h (by simp [readByteE])
  | cons x t =>
      rw [readByteE_cons] at h
      cases h
      rfl

theorem readBytesE_append (xs r : List Nat) :
    readBytesE xs.length (xs ++ r) = .ok (xs, r) := by
  unfold readBytesE
  rw [readBytes_append]

theorem readBytesE_eq {n : Nat} {bs xs r : List Nat}
    (h : readBytesE n bs = .ok (xs, r)) : bs = xs ++ r ∧ xs.length = n := by
  unfold readBytesE at h
  cases hr : readBytes n bs with
  | none => rw [hr] at h; exact absurd h (by simp)
  | some p =>
      rw [hr] at h
      cases h
      exact readBytes_eq hr

theorem parseBE_beBytes {w n : Nat} {r : List Nat} (h : n < 256 ^ w) :
    parseBE w (beBytes w n ++ r) = .ok (n, r) := by
  unfold parseBE
  have hr := readBytes_append (beBytes w n) r
  rw [beBytes_length] at hr
  rw [hr]
  show Except.ok (beVal (beBytes w n), r) = _
  rw [beVal_beBytes, Nat.mod_eq_of_lt h]

theorem parseBE_eq {w : Nat} {bs r : List Nat} {n : Nat} (hok : bytesOk bs)
    (h : parseBE w bs = .ok (n, r)) : bs = beBytes w n ++ r ∧ n < 256 ^ w := by
  unfold parseBE at h
  cases hr : readBytes w bs with
  | none => rw [hr] at h; exact absurd h (by simp)
  | some p =>
      obtain ⟨xs, rest⟩ := p
      rw [hr] at h
      cases h
      obtain ⟨hbs, hlen⟩ := readBytes_eq hr
      subst hbs
      have hxs : bytesOk xs := bytesOk_of_append_left hok
      constructor
      · rw [← hlen, beBytes_beVal xs hxs]
      · rw [← hlen]; exact beVal_lt xs hxs

theorem parseLP8_serLP8 {xs : List Nat} {r : List Nat} :
    parseLP8 (serLP8 xs ++ r) = .ok (xs, r) := by
  unfold parseLP8 serLP8
  rw [List.cons_append, readByteE_cons, step_ok]
  exact readBytesE_append xs r

theorem parseLP8_eq {bs xs r : List Nat} (hok : bytesOk bs)
    (h : parseLP8 bs = .ok (xs, r)) : bs = serLP8 xs ++ r ∧ xs.length < 256 := by
  unfold parseLP8 at h
  obtain ⟨n, r1, hb, h2⟩ := step_eq_ok h
  obtain ⟨hr1, hlen⟩ := readBytesE_eq h2
  have hbs := readByteE_eq hb
  subst hbs hr1 hlen
  exact ⟨rfl, hok _ (List.mem_cons_self _ _)⟩

theorem readBytesE_append_len {xs : List Nat} {n : Nat} (r : List Nat)
    (h : xs.length = n) : readBytesE n (xs ++ r) = .ok (xs, r) := by
  subst h; exact readBytesE_append xs r

theorem parseMany_serAll {p : List Nat → Except CodecErr (α × List Nat)}
    {ser : α → List Nat} {xs : List α} {r : List Nat}
    (h : ∀ x ∈ xs, ∀ s, p (ser x ++ s) = .ok (x, s)) :
    parseMany p xs.length (serAll ser xs ++ r) = .ok (xs, r) := by
  induction xs with
  | nil => rfl
  | cons x t ih =>
      rw [serAll_cons, List.append_assoc, List.length_cons, parseMany,
        h x (List.mem_cons_self x t), step_ok,
        ih fun y hy s => h y (List.mem_cons_of_mem x hy) s, step_ok]

theorem parseMany_eq {p : List Nat → Except CodecErr (α × List Nat)}
    {ser : α → List Nat}
    (hp : ∀ {bs x r}, bytesOk bs → p bs = .ok (x, r) → bs = ser x ++ r) :
    ∀ {n : Nat} {bs : List Nat} {xs : List α} {r : List Nat}, bytesOk bs →
      parseMany p n bs = .ok (xs, r) → bs = serAll ser xs ++ r ∧ xs.length = n := by
  intro n
  induction n with
  | zero =>
      intro bs xs r _ h
      rw [parseMany] at h
      cases h
      exact ⟨rfl, rfl⟩
  | succ n ih =>
      intro bs xs r hok h
      rw [parseMany] at h
      obtain ⟨x, r1, h1, h2⟩ := step_eq_ok h
      obtain ⟨xs1, r2, h3, h4⟩ := step_eq_ok h2
      cases h4
      have hbs := hp hok h1
      subst hbs
      obtain ⟨hr1, hlen⟩ := ih (bytesOk_of_append_right hok) h3
      subst hr1
      rw [serAll_cons, List.append_assoc]
      exact ⟨rfl, by simp [hlen]⟩

theorem authField_dataLen_eq (f : AuthField) :
    f.dataLen = fieldDataLen f.kind f.compressed := rfl

theorem parseAuthField_ser {f : AuthField} {r : List Nat} (hf : wfAuthField f) :
    parseAuthField (serAuthField f ++ r) = .ok (f, r) := by
  obtain ⟨hlen, _⟩ := hf
  obtain ⟨c, k, d⟩ := f
  cases k <;> cases c <;>
    · simp only [AuthField.dataLen, fieldDataLen] at hlen
      unfold serAuthField parseAuthField
      rw [List.cons_append, readByteE_cons, step_ok]
      rw [readBytesE_append_len r hlen]
      rfl

theorem parseAuthField_eq {bs r : List Nat} {f : AuthField} (hok : bytesOk bs)
    (h : parseAuthField bs = .ok (f, r)) : bs = serAuthField f ++ r := by
  unfold parseAuthField at h
  obtain ⟨tag, r1, h1, h2⟩ := step_eq_ok h
  have hbs := readByteE_eq h1
  subst hbs
  match tag, h2 with
  | 0, h2 =>
      obtain ⟨d, r2, h3, h4⟩ := step_eq_ok h2
      cases h4
      obtain ⟨hr, _⟩ := readBytesE_eq h3
      subst hr
      rfl
  | 1, h2 =>
      obtain ⟨d, r2, h3, h4⟩ := step_eq_ok h2
      cases h4
      obtain ⟨hr, _⟩ := readBytesE_eq h3
      subst hr
      rfl
  | 2, h2 =>
      obtain ⟨d, r2, h3, h4⟩ := step_eq_ok h2
      cases h4
      obtain ⟨hr, _⟩ := readBytesE_eq h3
      subst hr
      rfl
  | 3, h2 =>
      obtain ⟨d, r2, h3, h4⟩ := step_eq_ok h2
      cases h4
      obtain ⟨hr, _⟩ := readBytesE_eq h3
      subst hr
      rfl

theorem parseSingleBody_ser {c : SingleSigSC} {r : List Nat} (hc : wfSingleSigSC c) :
    parseSingleBody c.hashMode (serSingleBody c ++ r) = .ok (.single c, r) := by
  obtain ⟨⟨hsig, _, hnonce, hfee, hsiglen, _⟩, hcomp⟩ := hc
  unfold serSingleBody parseSingleBody
  simp only [List.append_assoc, List.cons_append]
  rw [readBytesE_append_len _ hsig, step_ok,
    parseBE_beBytes hnonce, step_ok, parseBE_beBytes hfee, step_ok,
    readByteE_cons, step_ok]
  obtain ⟨hm, signer, nonce, fee, enc, sig⟩ := c
  cases enc with
  | true =>
      show step (readBytesE 65 (sig ++ r)) _ = _
      rw [readBytesE_append_len _ hsiglen, step_ok]
  | false =>
      show (if hm.requiresCompressed then _ else _ : Except CodecErr _) = _
      have : hm.requiresCompressed = false := by
        cases hr : hm.requiresCompressed
        · rfl
        · exact absurd (hcomp hr) (by simp)
      rw [this]
      show step (readBytesE 65 (sig ++ r)) _ = _
      rw [readBytesE_append_len _ hsiglen, step_ok]

theorem parseMultiBody_ser {c : MultiSigSC} {r : List Nat} (hc : wfMultiSigSC c) :
    parseMultiBody c.hashMode (serMultiBody c ++ r) = .ok (.multi c, r) := by
  obtain ⟨⟨hsig, _, hnonce, hfee, hcnt, hreq, hfields⟩, hcomp⟩ := hc
  unfold serMultiBody parseMultiBody
  simp only [List.append_assoc, List.cons_append]
  rw [readBytesE_append_len _ hsig, step_ok, parseBE_beBytes hnonce, step_ok,
    parseBE_beBytes hfee, step_ok, parseBE_beBytes hcnt, step_ok,
    parseMany_serAll (fun f hf s => parseAuthField_ser (hfields f hf)), step_ok,
    parseBE_beBytes hreq, step_ok]
  have : (c.hashMode.requiresCompressed && c.fields.any fun f => !f.compressed) = false := by
    cases hr : c.hashMode.requiresCompressed
    · rfl
    · simp only [Bool.true_and, List.any_eq_false]
      intro f hf
      rw [hcomp hr f hf]
      simp
  rw [this]
  rfl

theorem parseSpendingCondition_ser {sc : SpendingCondition} {r : List Nat}
    (hc : wfSpendingCondition sc) :
    parseSpendingCondition (serSpendingCondition sc ++ r) = .ok (sc, r) := by
  cases sc with
  | single c =>
      show parseSpendingCondition ((c.hashMode.tag :: serSingleBody c) ++ r) = _
      rw [List.cons_append]
      unfold parseSpendingCondition
      rw [readByteE_cons, step_ok]
      cases hm : c.hashMode <;>
        · have h2 := @parseSingleBody_ser c r hc
          rw [hm] at h2
          exact h2
  | multi c =>
      show parseSpendingCondition ((c.hashMode.tag :: serMultiBody c) ++ r) = _
      rw [List.cons_append]
      unfold parseSpendingCondition
      rw [readByteE_cons, step_ok]
      cases hm : c.hashMode <;>
        · have h2 := @parseMultiBody_ser c r hc
          rw [hm] at h2
          exact h2

theorem parseSingleBody_eq {hm : SingleHashMode} {bs r : List Nat} {sc : SpendingCondition}
    (hok : bytesOk bs) (h : parseSingleBody hm bs = .ok (sc, r)) :
    ∃ c : SingleSigSC, sc = .single c ∧ c.hashMode = hm ∧ bs = serSingleBody c ++ r := by
  unfold parseSingleBody at h
  obtain ⟨signer, r1, h1, h⟩ := step_eq_ok h
  obtain ⟨hbs, -⟩ := readBytesE_eq h1
  obtain ⟨nonce, r2, h2, h⟩ := step_eq_ok h
  obtain ⟨hr1, -⟩ := parseBE_eq (bytesOk_of_append_right (hbs ▸ hok)) h2
  obtain ⟨fee, r3, h3, h⟩ := step_eq_ok h
  have hok2 : bytesOk r2 :=
    bytesOk_of_append_right (hr1 ▸ bytesOk_of_append_right (hbs ▸ hok))
  obtain ⟨hr2, -⟩ := parseBE_eq hok2 h3
  obtain ⟨enc, r4, h4, h⟩ := step_eq_ok h
  have hr3 := readByteE_eq h4
  match enc, h with
  | 0, h =>
      obtain ⟨sig, r5, h5, h⟩ := step_eq_ok h
      cases h
      obtain ⟨hr4, -⟩ := readBytesE_eq h5
      refine ⟨⟨hm, signer, nonce, fee, true, sig⟩, rfl, rfl, ?_⟩
      subst hbs hr1 hr2 hr3 hr4
      simp [serSingleBody, List.append_assoc]
  | 1, h =>
      cases hcr : hm.requiresCompressed with
      | true => rw [hcr] at h; exact absurd h (by simp)
      | false =>
          rw [hcr] at h
          simp only [Bool.false_eq_true, if_false] at h
          obtain ⟨sig, r5, h5, h⟩ := step_eq_ok h
          cases h
          obtain ⟨hr4, -⟩ := readBytesE_eq h5
          refine ⟨⟨hm, signer, nonce, fee, false, sig⟩, rfl, rfl, ?_⟩
          subst hbs hr1 hr2 hr3 hr4
          simp [serSingleBody, List.append_assoc]

theorem parseMultiBody_eq {hm : MultiHashMode} {bs r : List Nat} {sc : SpendingCondition}
    (hok : bytesOk bs) (h : parseMultiBody hm bs = .ok (sc, r)) :
    ∃ c : MultiSigSC, sc = .multi c ∧ c.hashMode = hm ∧ bs = serMultiBody c ++ r := by
  unfold parseMultiBody at h
  obtain ⟨signer, r1, h1, h⟩ := step_eq_ok h
  obtain ⟨hbs, -⟩ := readBytesE_eq h1
  have hok1 : bytesOk r1 := bytesOk_of_append_right (hbs ▸ hok)
  obtain ⟨nonce, r2, h2, h⟩ := step_eq_ok h
  obtain ⟨hr1, -⟩ := parseBE_eq hok1 h2
  have hok2 : bytesOk r2 := bytesOk_of_append_right (hr1 ▸ hok1)
  obtain ⟨fee, r3, h3, h⟩ := step_eq_ok h
  obtain ⟨hr2, -⟩ := parseBE_eq hok2 h3
  have hok3 : bytesOk r3 := bytesOk_of_append_right (hr2 ▸ hok2)
  obtain ⟨cnt, r4, h4, h⟩ := step_eq_ok h
  obtain ⟨hr3, -⟩ := parseBE_eq hok3 h4
  have hok4 : bytesOk r4 := bytesOk_of_append_right (hr3 ▸ hok3)
  obtain ⟨fields, r5, h5, h⟩ := step_eq_ok h
  obtain ⟨hr4, hflen⟩ := parseMany_eq (fun a b => parseAuthField_eq a b) hok4 h5
  have hok5 : bytesOk r5 := bytesOk_of_append_right (hr4 ▸ hok4)
  obtain ⟨req, r6, h6, h⟩ := step_eq_ok h
  obtain ⟨hr5, -⟩ := parseBE_eq hok5 h6
  cases hcc : (hm.requiresCompressed && fields.any fun f => !f.compressed) with
  | true => rw [hcc] at h; exact absurd h (by simp)
  | false =>
      rw [hcc] at h
      simp only [Bool.false_eq_true, if_false] at h
      cases h
      refine ⟨⟨hm, signer, nonce, fee, fields, req⟩, rfl, rfl, ?_⟩
      subst hbs hr1 hr2 hr3 hr4 hr5 hflen
      simp [serMultiBody, List.append_assoc]

theorem parseSpendingCondition_eq {bs r : List Nat} {sc : SpendingCondition}
    (hok : bytesOk bs) (h : parseSpendingCondition bs = .ok (sc, r)) :
    bs = serSpendingCondition sc ++ r := by
  unfold parseSpendingCondition at h
  obtain ⟨tag, r0, h0, h⟩ := step_eq_ok h
  have hbs := readByteE_eq h0
  have hok0 : bytesOk r0 := by
    subst hbs; exact fun b hb => hok b (List.mem_cons_of_mem _ hb)
  match tag, h with
  | 0, h =>
      obtain ⟨c, hsc, hhm, hr0⟩ := parseSingleBody_eq hok0 h
      subst hsc hbs hr0
      simp [serSpendingCondition, serSingleSigSC, SingleHashMode.tag, hhm]
  | 2, h =>
      obtain ⟨c, hsc, hhm, hr0⟩ := parseSingleBody_eq hok0 h
      subst hsc hbs hr0
      simp [serSpendingCondition, serSingleSigSC, SingleHashMode.tag, hhm]
  | 1, h =>
      obtain ⟨c, hsc, hhm, hr0⟩ := parseMultiBody_eq hok0 h
      subst hsc hbs hr0
      simp [serSpendingCondition, serMultiSigSC, MultiHashMode.tag, hhm]
  | 3, h =>
      obtain ⟨c, hsc, hhm, hr0⟩ := parseMultiBody_eq hok0 h
      subst hsc hbs hr0
      simp [serSpendingCondition, serMultiSigSC, MultiHashMode.tag, hhm]
  | 5, h =>
      obtain ⟨c, hsc, hhm, hr0⟩ := parseMultiBody_eq hok0 h
      subst hsc hbs hr0
      simp [serSpendingCondition, serMultiSigSC, MultiHashMode.tag, hhm]

theorem parseAuthorization_ser {a : Authorization} {r : List Nat}
    (ha : wfAuthorization a) :
    parseAuthorization (serAuthorization a ++ r) = .ok (a, r) := by
  cases a with
  | standard o =>
      unfold serAuthorization parseAuthorization
      rw [List.cons_append, readByteE_cons, step_ok]
      show step (parseSpendingCondition (serSpendingCondition o ++ r)) _ = _
      rw [parseSpendingCondition_ser ha, step_ok]
  | sponsored o s =>
      obtain ⟨ho, hs⟩ := ha
      show parseAuthorization ((5 :: (serSpendingCondition o ++ serSpendingCondition s)) ++ r) = _
      rw [List.cons_append]
      unfold parseAuthorization
      rw [readByteE_cons, step_ok]
      show step (parseSpendingCondition ((serSpendingCondition o ++ serSpendingCondition s) ++ r)) _ = _
      rw [List.append_assoc, parseSpendingCondition_ser ho, step_ok,
        parseSpendingCondition_ser hs, step_ok]

theorem parseAuthorization_eq {bs r : List Nat} {a : Authorization}
    (hok : bytesOk bs) (h : parseAuthorization bs = .ok (a, r)) :
    bs = serAuthorization a ++ r := by
  unfold parseAuthorization at h
  obtain ⟨tag, r0, h0, h⟩ := step_eq_ok h
  have hbs := readByteE_eq h0
  have hok0 : bytesOk r0 := by
    subst hbs; exact fun b hb => hok b (List.mem_cons_of_mem _ hb)
  match tag, h with
  | 4, h =>
      obtain ⟨o, r2, h1, h⟩ := step_eq_ok h
      cases h
      have := parseSpendingCondition_eq hok0 h1
      subst hbs this
      rfl
  | 5, h =>
      obtain ⟨o, r2, h1, h⟩ := step_eq_ok h
      obtain ⟨s, r3, h2, h⟩ := step_eq_ok h
      cases h
      have e1 := parseSpendingCondition_eq hok0 h1
      have hok2 : bytesOk r2 := bytesOk_of_append_right (e1 ▸ hok0)
      have e2 := parseSpendingCondition_eq hok2 h2
      subst hbs e1 e2
      simp [serAuthorization, List.append_assoc]

theorem parseAddress_ser {a : Address} {r : List Nat} (ha : wfAddress a) :
    parseAddress (serAddress a ++ r) = .ok (a, r) := by
  obtain ⟨-, hlen, -⟩ := ha
  unfold serAddress parseAddress
  rw [List.cons_append, readByteE_cons, step_ok, readBytesE_append_len _ hlen, step_ok]

theorem parseAddress_eq {bs r : List Nat} {a : Address}
    (h : parseAddress bs = .ok (a, r)) : bs = serAddress a ++ r := by
  unfold parseAddress at h
  obtain ⟨v, r0, h0, h⟩ := step_eq_ok h
  obtain ⟨h160, r2, h1, h⟩ := step_eq_ok h
  cases h
  obtain ⟨e1, -⟩ := readBytesE_eq h1
  have e0 := readByteE_eq h0
  subst e1 e0
  rfl

theorem parseClarityV_ser {v : ClarityV} {r : List Nat} (hv : wfClarityV v) :
    parseClarityV (serClarityV v ++ r) = .ok (v, r) := by
  cases v with
  | uintCV n =>
      unfold serClarityV parseClarityV
      rw [List.cons_append, readByteE_cons, step_ok]
      have hn : n < 2 ^ 128 := hv
      rw [parseBE_beBytes (by norm_num at hn ⊢; omega), step_ok]
  | trueCV => rfl
  | falseCV => rfl
  | standardPrincipalCV a =>
      unfold serClarityV parseClarityV
      rw [List.cons_append, readByteE_cons, step_ok]
      show step (parseAddress (serAddress a ++ r)) _ = _
      rw [parseAddress_ser hv, step_ok]
  | contractPrincipalCV a nm =>
      obtain ⟨ha, hlen, -⟩ := hv
      show parseClarityV ((6 :: (serAddress a ++ serLP8 nm)) ++ r) = _
      rw [List.cons_append]
      unfold parseClarityV
      rw [readByteE_cons, step_ok]
      show step (parseAddress ((serAddress a ++ serLP8 nm) ++ r)) _ = _
      rw [List.append_assoc, parseAddress_ser ha, step_ok, parseLP8_serLP8, step_ok]

theorem parseClarityV_eq {bs r : List Nat} {v : ClarityV}
    (hok : bytesOk bs) (h : parseClarityV bs = .ok (v, r)) :
    bs = serClarityV v ++ r := by
  unfold parseClarityV at h
  obtain ⟨tag, r0, h0, h⟩ := step_eq_ok h
  have hbs := readByteE_eq h0
  have hok0 : bytesOk r0 := by
    subst hbs; exact fun b hb => hok b (List.mem_cons_of_mem _ hb)
  match tag, h with
  | 1, h =>
      obtain ⟨n, r2, h1, h⟩ := step_eq_ok h
      cases h
      obtain ⟨e1, -⟩ := parseBE_eq hok0 h1
      subst hbs e1
      rfl
  | 3, h => cases h; subst hbs; rfl
  | 4, h => cases h; subst hbs; rfl
  | 5, h =>
      obtain ⟨a, r2, h1, h⟩ := step_eq_ok h
      cases h
      have e1 := parseAddress_eq h1
      subst hbs e1
      rfl
  | 6, h =>
      obtain ⟨a, r2, h1, h⟩ := step_eq_ok h
      obtain ⟨nm, r3, h2, h⟩ := step_eq_ok h
      cases h
      have e1 := parseAddress_eq h1
      have hok2 : bytesOk r2 := bytesOk_of_append_right (e1 ▸ hok0)
      obtain ⟨e2, -⟩ := parseLP8_eq hok2 h2
      subst hbs e1 e2
      simp [serClarityV, List.append_assoc]

theorem parsePCPrincipal_ser {p : PCPrincipal} {r : List Nat} (hp : wfPCPrincipal p) :
    parsePCPrincipal (serPCPrincipal p ++ r) = .ok (p, r) := by
  cases p with
  | origin => rfl
  | standard a =>
      unfold serPCPrincipal parsePCPrincipal
      rw [List.cons_append, readByteE_cons, step_ok]
      show step (parseAddress (serAddress a ++ r)) _ = _
      rw [parseAddress_ser hp, step_ok]
  | contract a nm =>
      obtain ⟨ha, hlen, -⟩ := hp
      show parsePCPrincipal ((3 :: (serAddress a ++ serLP8 nm)) ++ r) = _
      rw [List.cons_append]
      unfold parsePCPrincipal
      rw [readByteE_cons, step_ok]
      show step (parseAddress ((serAddress a ++ serLP8 nm) ++ r)) _ = _
      rw [List.append_assoc, parseAddress_ser ha, step_ok, parseLP8_serLP8, step_ok]

theorem parsePCPrincipal_eq {bs r : List Nat} {p : PCPrincipal}
    (hok : bytesOk bs) (h : parsePCPrincipal bs = .ok (p, r)) :
    bs = serPCPrincipal p ++ r := by
  unfold parsePCPrincipal at h
  obtain ⟨tag, r0, h0, h⟩ := step_eq_ok h
  have hbs := readByteE_eq h0
  have hok0 : bytesOk r0 := by
    subst hbs; exact fun b hb => hok b (List.mem_cons_of_mem _ hb)
  match tag, h with
  | 1, h => cases h; subst hbs; rfl
  | 2, h =>
      obtain ⟨a, r2, h1, h⟩ := step_eq_ok h
      cases h
      have e1 := parseAddress_eq h1
      subst hbs e1
      rfl
  | 3, h =>
      obtain ⟨a, r2, h1, h⟩ := step_eq_ok h
      obtain ⟨nm, r3, h2, h⟩ := step_eq_ok h
      cases h
      have e1 := parseAddress_eq h1
      have hok2 : bytesOk r2 := bytesOk_of_append_right (e1 ▸ hok0)
      obtain ⟨e2, -⟩ := parseLP8_eq hok2 h2
      subst hbs e1 e2
      simp [serPCPrincipal, List.append_assoc]

theorem parseAssetInfo_ser {a : AssetInfo} {r : List Nat} (ha : wfAssetInfo a) :
    parseAssetInfo (serAssetInfo a ++ r) = .ok (a, r) := by
  obtain ⟨haddr, -, -, -, -⟩ := ha
  unfold serAssetInfo parseAssetInfo
  simp only [List.append_assoc]
  rw [parseAddress_ser haddr, step_ok, parseLP8_serLP8, step_ok, parseLP8_serLP8, step_ok]

theorem parseAssetInfo_eq {bs r : List Nat} {a : AssetInfo}
    (hok : bytesOk bs) (h : parseAssetInfo bs = .ok (a, r)) :
    bs = serAssetInfo a ++ r := by
  unfold parseAssetInfo at h
  obtain ⟨addr, r1, h1, h⟩ := step_eq_ok h
  obtain ⟨cn, r2, h2, h⟩ := step_eq_ok h
  obtain ⟨an, r3, h3, h⟩ := step_eq_ok h
  cases h
  have e1 := parseAddress_eq h1
  have hok1 : bytesOk r1 := bytesOk_of_append_right (e1 ▸ hok)
  obtain ⟨e2, -⟩ := parseLP8_eq hok1 h2
  have hok2 : bytesOk r2 := bytesOk_of_append_right (e2 ▸ hok1)
  obtain ⟨e3, -⟩ := parseLP8_eq hok2 h3
  subst e1 e2 e3
  simp [serAssetInfo, List.append_assoc]

theorem parsePostCondition_ser {pc : PostCondition} {r : List Nat}
    (hpc : wfPostCondition pc) :
    parsePostCondition (serPostCondition pc ++ r) = .ok (pc, r) := by
  cases pc with
  | stx p code amt =>
      obtain ⟨hp, hcode, hamt⟩ := hpc
      show parsePostCondition ((0 :: (serPCPrincipal p ++ code :: beBytes 8 amt)) ++ r) = _
      rw [List.cons_append]
      unfold parsePostCondition
      rw [readByteE_cons, step_ok]
      show step (parsePCPrincipal ((serPCPrincipal p ++ code :: beBytes 8 amt) ++ r)) _ = _
      rw [List.append_assoc, parsePCPrincipal_ser hp, step_ok, List.cons_append,
        readByteE_cons, step_ok, parseBE_beBytes hamt, step_ok]
  | fungible p a code amt =>
      obtain ⟨hp, ha, hcode, hamt⟩ := hpc
      show parsePostCondition
        ((1 :: (serPCPrincipal p ++ serAssetInfo a ++ code :: beBytes 8 amt)) ++ r) = _
      rw [List.cons_append]
      unfold parsePostCondition
      rw [readByteE_cons, step_ok]
      show step (parsePCPrincipal
        ((serPCPrincipal p ++ serAssetInfo a ++ code :: beBytes 8 amt) ++ r)) _ = _
      simp only [List.append_assoc]
      rw [parsePCPrincipal_ser hp, step_ok, parseAssetInfo_ser ha, step_ok,
        List.cons_append, readByteE_cons, step_ok, parseBE_beBytes hamt, step_ok]
  | nonFungible p a v code =>
      obtain ⟨hp, ha, hv, hcode⟩ := hpc
      show parsePostCondition
        ((2 :: (serPCPrincipal p ++ serAssetInfo a ++ serClarityV v ++ [code])) ++ r) = _
      rw [List.cons_append]
      unfold parsePostCondition
      rw [readByteE_cons, step_ok]
      show step (parsePCPrincipal
        ((serPCPrincipal p ++ serAssetInfo a ++ serClarityV v ++ [code]) ++ r)) _ = _
      simp only [List.append_assoc]
      rw [parsePCPrincipal_ser hp, step_ok, parseAssetInfo_ser ha, step_ok,
        parseClarityV_ser hv, step_ok, List.cons_append, readByteE_cons, step_ok,
        List.nil_append]

theorem parsePostCondition_eq {bs r : List Nat} {pc : PostCondition}
    (hok : bytesOk bs) (h : parsePostCondition bs = .ok (pc, r)) :
    bs = serPostCondition pc ++ r := by
  unfold parsePostCondition at h
  obtain ⟨tag, r0, h0, h⟩ := step_eq_ok h
  have hbs := readByteE_eq h0
  have hok0 : bytesOk r0 := by
    subst hbs; exact fun b hb => hok b (List.mem_cons_of_mem _ hb)
  match tag, h with
  | 0, h =>
      obtain ⟨p, r1, h1, h⟩ := step_eq_ok h
      obtain ⟨code, r2, h2, h⟩ := step_eq_ok h
      obtain ⟨amt, r3, h3, h⟩ := step_eq_ok h
      cases h
      have e1 := parsePCPrincipal_eq hok0 h1
      have hok1 : bytesOk r1 := bytesOk_of_append_right (e1 ▸ hok0)
      have e2 := readByteE_eq h2
      have hok2 : bytesOk r2 := by
        subst e2; exact fun b hb => hok1 b (List.mem_cons_of_mem _ hb)
      obtain ⟨e3, -⟩ := parseBE_eq hok2 h3
      subst hbs e1 e2 e3
      simp [serPostCondition, List.append_assoc]
  | 1, h =>
      obtain ⟨p, r1, h1, h⟩ := step_eq_ok h
      obtain ⟨a, r2, h2, h⟩ := step_eq_ok h
      obtain ⟨code, r3, h3, h⟩ := step_eq_ok h
      obtain ⟨amt, r4, h4, h⟩ := step_eq_ok h
      cases h
      have e1 := parsePCPrincipal_eq hok0 h1
      have hok1 : bytesOk r1 := bytesOk_of_append_right (e1 ▸ hok0)
      have e2 := parseAssetInfo_eq hok1 h2
      have hok2 : bytesOk r2 := bytesOk_of_append_right (e2 ▸ hok1)
      have e3 := readByteE_eq h3
      have hok3 : bytesOk r3 := by
        subst e3; exact fun b hb => hok2 b (List.mem_cons_of_mem _ hb)
      obtain ⟨e4, -⟩ := parseBE_eq hok3 h4
      subst hbs e1 e2 e3 e4
      simp [serPostCondition, List.append_assoc]
  | 2, h =>
      obtain ⟨p, r1, h1, h⟩ := step_eq_ok h
      obtain ⟨a, r2, h2, h⟩ := step_eq_ok h
      obtain ⟨v, r3, h3, h⟩ := step_eq_ok h
      obtain ⟨code, r4, h4, h⟩ := step_eq_ok h
      cases h
      have e1 := parsePCPrincipal_eq hok0 h1
      have hok1 : bytesOk r1 := bytesOk_of_append_right (e1 ▸ hok0)
      have e2 := parseAssetInfo_eq hok1 h2
      have hok2 : bytesOk r2 := bytesOk_of_append_right (e2 ▸ hok1)
      have e3 := parseClarityV_eq hok2 h3
      have e4 := readByteE_eq h4
      subst hbs e1 e2 e3 e4
      simp [serPostCondition, List.append_assoc]

theorem parseLP32_serLP32 {xs r : List Nat} (h : xs.length < 2 ^ 32) :
    parseLP32 (serLP32 xs ++ r) = .ok (xs, r) := by
  unfold parseLP32 serLP32
  rw [List.append_assoc, parseBE_beBytes (by norm_num at h ⊢; omega), step_ok]
  exact readBytesE_append xs r

theorem parseLP32_eq {bs xs r : List Nat} (hok : bytesOk bs)
    (h : parseLP32 bs = .ok (xs, r)) : bs = serLP32 xs ++ r ∧ xs.length < 2 ^ 32 := by
  unfold parseLP32 at h
  obtain ⟨n, r1, h1, h2⟩ := step_eq_ok h
  obtain ⟨e1, hn⟩ := parseBE_eq hok h1
  obtain ⟨e2, hlen⟩ := readBytesE_eq h2
  subst e1 e2 hlen
  exact ⟨by simp [serLP32, List.append_assoc], by norm_num at hn ⊢; omega⟩

theorem parsePayload_ser {p : Payload} {r : List Nat} (hp : wfPayload p) :
    parsePayload (serPayload p ++ r) = .ok (p, r) := by
  cases p with
  | tokenTransfer recipient amt memo =>
      obtain ⟨-, hrv, hamt, hmemo, -⟩ := hp
      show parsePayload ((0 :: (serClarityV recipient ++ beBytes 8 amt ++ memo)) ++ r) = _
      rw [List.cons_append]
      unfold parsePayload
      rw [readByteE_cons, step_ok]
      show step (parseClarityV ((serClarityV recipient ++ beBytes 8 amt ++ memo) ++ r)) _ = _
      simp only [List.append_assoc]
      rw [parseClarityV_ser hrv, step_ok, parseBE_beBytes hamt, step_ok,
        readBytesE_append_len _ hmemo, step_ok]
  | smartContract name code =>
      obtain ⟨hname, -, hcode, -⟩ := hp
      show parsePayload ((1 :: (serLP8 name ++ serLP32 code)) ++ r) = _
      rw [List.cons_append]
      unfold parsePayload
      rw [readByteE_cons, step_ok]
      show step (parseLP8 ((serLP8 name ++ serLP32 code) ++ r)) _ = _
      rw [List.append_assoc, parseLP8_serLP8, step_ok, parseLP32_serLP32 hcode, step_ok]
  | versionedSmartContract ver name code =>
      obtain ⟨hver, hname, -, hcode, -⟩ := hp
      show parsePayload ((6 :: ver :: (serLP8 name ++ serLP32 code)) ++ r) = _
      rw [List.cons_append, List.cons_append]
      unfold parsePayload
      rw [readByteE_cons, step_ok, readByteE_cons, step_ok]
      show step (parseLP8 ((serLP8 name ++ serLP32 code) ++ r)) _ = _
      rw [List.append_assoc, parseLP8_serLP8, step_ok, parseLP32_serLP32 hcode, step_ok]
  | contractCall addr cname fname args =>
      obtain ⟨haddr, hcn, -, hfn, -, hcnt, hargs⟩ := hp
      show parsePayload ((2 :: (serAddress addr ++ serLP8 cname ++ serLP8 fname ++
        beBytes 4 args.length ++ serAll serClarityV args)) ++ r) = _
      rw [List.cons_append]
      unfold parsePayload
      rw [readByteE_cons, step_ok]
      show step (parseAddress ((serAddress addr ++ serLP8 cname ++ serLP8 fname ++
        beBytes 4 args.length ++ serAll serClarityV args) ++ r)) _ = _
      simp only [List.append_assoc]
      rw [parseAddress_ser haddr, step_ok, parseLP8_serLP8, step_ok, parseLP8_serLP8,
        step_ok, parseBE_beBytes hcnt, step_ok,
        parseMany_serAll (fun v hv s => parseClarityV_ser (hargs v hv)), step_ok]

theorem parsePayload_eq {bs r : List Nat} {p : Payload}
    (hok : bytesOk bs) (h : parsePayload bs = .ok (p, r)) :
    bs = serPayload p ++ r := by
  unfold parsePayload at h
  obtain ⟨tag, r0, h0, h⟩ := step_eq_ok h
  have hbs := readByteE_eq h0
  have hok0 : bytesOk r0 := by
    subst hbs; exact fun b hb => hok b (List.mem_cons_of_mem _ hb)
  match tag, h with
  | 0, h =>
      obtain ⟨recipient, r1, h1, h⟩ := step_eq_ok h
      obtain ⟨amt, r2, h2, h⟩ := step_eq_ok h
      obtain ⟨memo, r3, h3, h⟩ := step_eq_ok h
      cases h
      have e1 := parseClarityV_eq hok0 h1
      have hok1 : bytesOk r1 := bytesOk_of_append_right (e1 ▸ hok0)
      obtain ⟨e2, -⟩ := parseBE_eq hok1 h2
      have hok2 : bytesOk r2 := bytesOk_of_append_right (e2 ▸ hok1)
      obtain ⟨e3, -⟩ := readBytesE_eq h3
      subst hbs e1 e2 e3
      simp [serPayload, List.append_assoc]
  | 1, h =>
      obtain ⟨name, r1, h1, h⟩ := step_eq_ok h
      obtain ⟨code, r2, h2, h⟩ := step_eq_ok h
      cases h
      obtain ⟨e1, -⟩ := parseLP8_eq hok0 h1
      have hok1 : bytesOk r1 := bytesOk_of_append_right (e1 ▸ hok0)
      obtain ⟨e2, -⟩ := parseLP32_eq hok1 h2
      subst hbs e1 e2
      simp [serPayload, List.append_assoc]
  | 6, h =>
      obtain ⟨ver, r1, h1, h⟩ := step_eq_ok h
      obtain ⟨name, r2, h2, h⟩ := step_eq_ok h
      obtain ⟨code, r3, h3, h⟩ := step_eq_ok h
      cases h
      have e1 := readByteE_eq h1
      have hok1 : bytesOk r1 := by
        subst e1; exact fun b hb => hok0 b (List.mem_cons_of_mem _ hb)
      obtain ⟨e2, -⟩ := parseLP8_eq hok1 h2
      have hok2 : bytesOk r2 := bytesOk_of_append_right (e2 ▸ hok1)
      obtain ⟨e3, -⟩ := parseLP32_eq hok2 h3
      subst hbs e1 e2 e3
      simp [serPayload, List.append_assoc]
  | 2, h =>
      obtain ⟨addr, r1, h1, h⟩ := step_eq_ok h
      obtain ⟨cname, r2, h2, h⟩ := step_eq_ok h
      obtain ⟨fname, r3, h3, h⟩ := step_eq_ok h
      obtain ⟨cnt, r4, h4, h⟩ := step_eq_ok h
      obtain ⟨args, r5, h5, h⟩ := step_eq_ok h
      cases h
      have e1 := parseAddress_eq h1
      have hok1 : bytesOk r1 := bytesOk_of_append_right (e1 ▸ hok0)
      obtain ⟨e2, -⟩ := parseLP8_eq hok1 h2
      have hok2 : bytesOk r2 := bytesOk_of_append_right (e2 ▸ hok1)
      obtain ⟨e3, -⟩ := parseLP8_eq hok2 h3
      have hok3 : bytesOk r3 := bytesOk_of_append_right (e3 ▸ hok2)
      obtain ⟨e4, -⟩ := parseBE_eq hok3 h4
      have hok4 : bytesOk r4 := bytesOk_of_append_right (e4 ▸ hok3)
      obtain ⟨e5, hlen⟩ := parseMany_eq (fun a b => parseClarityV_eq a b) hok4 h5
      subst hbs e1 e2 e3 e4 e5 hlen
      simp [serPayload, List.append_assoc]

theorem parseTransaction_ser {tx : StacksTransaction} {r : List Nat}
    (htx : wfTransaction tx) :
    parseTransaction (serializeTransaction tx ++ r) = .ok (tx, r) := by
  obtain ⟨hver, hchain, hauth, hanchor, hpcm, hcnt, hpcs, hpl⟩ := htx
  unfold serializeTransaction parseTransaction
  simp only [List.append_assoc, List.cons_append]
  rw [readByteE_cons, step_ok, parseBE_beBytes hchain, step_ok,
    parseAuthorization_ser hauth, step_ok, readByteE_cons, step_ok, if_pos hanchor,
    readByteE_cons, step_ok, if_pos hpcm, parseBE_beBytes hcnt, step_ok,
    parseMany_serAll (fun pc hpc s => parsePostCondition_ser (hpcs pc hpc)), step_ok]
  show step (parsePayload (serPayload tx.payload ++ r)) _ = _
  rw [parsePayload_ser hpl, step_ok]

theorem parseTransaction_eq {bs r : List Nat} {tx : StacksTransaction}
    (hok : bytesOk bs) (h : parseTransaction bs = .ok (tx, r)) :
    bs = serializeTransaction tx ++ r := by
  unfold parseTransaction at h
  obtain ⟨ver, r1, h1, h⟩ := step_eq_ok h
  have e1 := readByteE_eq h1
  have hok1 : bytesOk r1 := by
    subst e1; exact fun b hb => hok b (List.mem_cons_of_mem _ hb)
  obtain ⟨chainId, r2, h2, h⟩ := step_eq_ok h
  obtain ⟨e2, -⟩ := parseBE_eq hok1 h2
  have hok2 : bytesOk r2 := bytesOk_of_append_right (e2 ▸ hok1)
  obtain ⟨auth, r3, h3, h⟩ := step_eq_ok h
  have e3 := parseAuthorization_eq hok2 h3
  have hok3 : bytesOk r3 := bytesOk_of_append_right (e3 ▸ hok2)
  obtain ⟨anchor, r4, h4, h⟩ := step_eq_ok h
  have e4 := readByteE_eq h4
  have hok4 : bytesOk r4 := by
    subst e4; exact fun b hb => hok3 b (List.mem_cons_of_mem _ hb)
  by_cases hanchor : anchor = 1 ∨ anchor = 2 ∨ anchor = 3
  · rw [if_pos hanchor] at h
    obtain ⟨pcm, r5, h5, h⟩ := step_eq_ok h
    have e5 := readByteE_eq h5
    have hok5 : bytesOk r5 := by
      subst e5; exact fun b hb => hok4 b (List.mem_cons_of_mem _ hb)
    by_cases hpcm : pcm = 1 ∨ pcm = 2
    · rw [if_pos hpcm] at h
      obtain ⟨cnt, r6, h6, h⟩ := step_eq_ok h
      obtain ⟨e6, -⟩ := parseBE_eq hok5 h6
      have hok6 : bytesOk r6 := bytesOk_of_append_right (e6 ▸ hok5)
      obtain ⟨pcs, r7, h7, h⟩ := step_eq_ok h
      obtain ⟨e7, hlen⟩ := parseMany_eq (fun a b => parsePostCondition_eq a b) hok6 h7
      have hok7 : bytesOk r7 := bytesOk_of_append_right (e7 ▸ hok6)
      obtain ⟨pl, r8, h8, h⟩ := step_eq_ok h
      have e8 := parsePayload_eq hok7 h8
      cases h
      subst e1 e2 e3 e4 e5 e6 e7 e8 hlen
      simp [serializeTransaction, List.append_assoc]
    · rw [if_neg hpcm] at h
      exact absurd h (by simp)
  · rw [if_neg hanchor] at h
    exact absurd h (by simp)

theorem hexDigitChar_ne_x {n : Nat} (h : n < 16) : hexDigitChar n ≠ 'x' := by
  interval_cases n <;> decide

theorem stripHexMarker_bytesToHexChars (bs : List Nat) (h : bytesOk bs) :
    stripHexMarker (bytesToHexChars bs) = bytesToHexChars bs := by
  cases bs with
  | nil => rfl
  | cons b t =>
      have hb : b < 256 := h b (List.mem_cons_self b t)
      show stripHexMarker (hexDigitChar (b / 16) :: hexDigitChar (b % 16) :: bytesToHexChars t) = _
      simp only [stripHexMarker]
      rw [if_neg]
      · rfl
      · rintro ⟨-, h2⟩
        exact hexDigitChar_ne_x (Nat.mod_lt _ (by norm_num)) h2

theorem stripHexMarker_marker (s : List Char) : stripHexMarker ('0' :: 'x' :: s) = s := by
  simp [stripHexMarker]

theorem deserializeTransactionBytes_ser {tx : StacksTransaction}
    (htx : wfTransaction tx) :
    deserializeTransactionBytes (serializeTransaction tx) = .ok tx := by
  unfold deserializeTransactionBytes
  have h := @parseTransaction_ser tx [] htx
  rw [List.append_nil] at h
  rw [h]
  rfl

theorem bytesOk_cons {b : Nat} {t : List Nat} (hb : b < 256) (ht : bytesOk t) :
    bytesOk (b :: t) := by
  intro x hx
  rcases List.mem_cons.1 hx with h | h
  · omega
  · exact ht x h

theorem bytesOk_serAll {ser : α → List Nat} {xs : List α}
    (h : ∀ x ∈ xs, bytesOk (ser x)) : bytesOk (serAll ser xs) := by
  induction xs with
  | nil => intro b hb; simp [serAll] at hb
  | cons x t ih =>
      rw [serAll_cons]
      exact bytesOk_append (h x (List.mem_cons_self x t))
        (ih fun y hy => h y (List.mem_cons_of_mem x hy))

theorem bytesOk_serAuthField {f : AuthField} (hf : wfAuthField f) :
    bytesOk (serAuthField f) := by
  obtain ⟨-, hd⟩ := hf
  refine bytesOk_cons ?_ hd
  obtain ⟨c, k, d⟩ := f
  cases k <;> cases c <;> simp [AuthField.tag]

theorem bytesOk_serSpendingCondition {sc : SpendingCondition}
    (hsc : wfSpendingCondition sc) : bytesOk (serSpendingCondition sc) := by
  cases sc with
  | single c =>
      obtain ⟨⟨-, hs, -, -, -, hsig⟩, -⟩ := hsc
      show bytesOk (c.hashMode.tag :: serSingleBody c)
      refine bytesOk_cons (by cases c.hashMode <;> simp [SingleHashMode.tag]) ?_
      unfold serSingleBody
      refine bytesOk_append (bytesOk_append (bytesOk_append hs (bytesOk_beBytes 8 _))
        (bytesOk_beBytes 8 _)) (bytesOk_cons ?_ hsig)
      cases c.keyEncodingCompressed <;> simp
  | multi c =>
      obtain ⟨⟨-, hs, -, -, -, -, hf⟩, -⟩ := hsc
      show bytesOk (c.hashMode.tag :: serMultiBody c)
      refine bytesOk_cons (by cases c.hashMode <;> simp [MultiHashMode.tag]) ?_
      unfold serMultiBody
      exact bytesOk_append (bytesOk_append (bytesOk_append (bytesOk_append
        (bytesOk_append hs (bytesOk_beBytes 8 _)) (bytesOk_beBytes 8 _))
        (bytesOk_beBytes 4 _))
        (bytesOk_serAll fun f hfm => bytesOk_serAuthField (hf f hfm)))
        (bytesOk_beBytes 2 _)

theorem bytesOk_serAuthorization {a : Authorization} (ha : wfAuthorization a) :
    bytesOk (serAuthorization a) := by
  cases a with
  | standard o =>
      exact bytesOk_cons (by norm_num) (bytesOk_serSpendingCondition ha)
  | sponsored o s =>
      obtain ⟨ho, hs⟩ := ha
      exact bytesOk_cons (by norm_num)
        (bytesOk_append (bytesOk_serSpendingCondition ho) (bytesOk_serSpendingCondition hs))

theorem bytesOk_serAddress {a : Address} (ha : wfAddress a) : bytesOk (serAddress a) :=
  bytesOk_cons ha.1 ha.2.2

theorem bytesOk_serLP8 {bs : List Nat} (hlen : bs.length < 256) (h : bytesOk bs) :
    bytesOk (serLP8 bs) := bytesOk_cons hlen h

theorem bytesOk_serLP32 {bs : List Nat} (h : bytesOk bs) : bytesOk (serLP32 bs) :=
  bytesOk_append (bytesOk_beBytes 4 _) h

theorem bytesOk_serClarityV {v : ClarityV} (hv : wfClarityV v) :
    bytesOk (serClarityV v) := by
  cases v with
  | uintCV n => exact bytesOk_cons (by norm_num) (bytesOk_beBytes 16 _)
  | trueCV => intro b hb; simp [serClarityV] at hb; omega
  | falseCV => intro b hb; simp [serClarityV] at hb; omega
  | standardPrincipalCV a =>
      exact bytesOk_cons (by norm_num) (bytesOk_serAddress hv)
  | contractPrincipalCV a nm =>
      obtain ⟨ha, hlen, hnm⟩ := hv
      exact bytesOk_cons (by norm_num)
        (bytesOk_append (bytesOk_serAddress ha) (bytesOk_serLP8 hlen hnm))

theorem bytesOk_serPCPrincipal {p : PCPrincipal} (hp : wfPCPrincipal p) :
    bytesOk (serPCPrincipal p) := by
  cases p with
  | origin => intro b hb; simp [serPCPrincipal] at hb; omega
  | standard a => exact bytesOk_cons (by norm_num) (bytesOk_serAddress hp)
  | contract a nm =>
      obtain ⟨ha, hlen, hnm⟩ := hp
      exact bytesOk_cons (by norm_num)
        (bytesOk_append (bytesOk_serAddress ha) (bytesOk_serLP8 hlen hnm))

theorem bytesOk_serAssetInfo {a : AssetInfo} (ha : wfAssetInfo a) :
    bytesOk (serAssetInfo a) := by
  obtain ⟨haddr, hcl, hc, hal, hb⟩ := ha
  exact bytesOk_append (bytesOk_append (bytesOk_serAddress haddr)
    (bytesOk_serLP8 hcl hc)) (bytesOk_serLP8 hal hb)

theorem bytesOk_serPostCondition {pc : PostCondition} (hpc : wfPostCondition pc) :
    bytesOk (serPostCondition pc) := by
  cases pc with
  | stx p code amt =>
      obtain ⟨hp, hcode, -⟩ := hpc
      exact bytesOk_cons (by norm_num) (bytesOk_append (bytesOk_serPCPrincipal hp)
        (bytesOk_cons hcode (bytesOk_beBytes 8 _)))
  | fungible p a code amt =>
      obtain ⟨hp, ha, hcode, -⟩ := hpc
      exact bytesOk_cons (by norm_num) (bytesOk_append (bytesOk_append
        (bytesOk_serPCPrincipal hp) (bytesOk_serAssetInfo ha))
        (bytesOk_cons hcode (bytesOk_beBytes 8 _)))
  | nonFungible p a v code =>
      obtain ⟨hp, ha, hv, hcode⟩ := hpc
      refine bytesOk_cons (by norm_num) (bytesOk_append (bytesOk_append (bytesOk_append
        (bytesOk_serPCPrincipal hp) (bytesOk_serAssetInfo ha))
        (bytesOk_serClarityV hv)) ?_)
      intro b hb
      simp at hb
      omega

theorem bytesOk_serPayload {p : Payload} (hp : wfPayload p) :
    bytesOk (serPayload p) := by
  cases p with
  | tokenTransfer recipient amt memo =>
      obtain ⟨-, hr, -, -, hm⟩ := hp
      exact bytesOk_cons (by norm_num) (bytesOk_append (bytesOk_append
        (bytesOk_serClarityV hr) (bytesOk_beBytes 8 _)) hm)
  | smartContract name code =>
      obtain ⟨hnl, hn, -, hc⟩ := hp
      exact bytesOk_cons (by norm_num)
        (bytesOk_append (bytesOk_serLP8 hnl hn) (bytesOk_serLP32 hc))
  | versionedSmartContract ver name code =>
      obtain ⟨hv, hnl, hn, -, hc⟩ := hp
      exact bytesOk_cons (by norm_num) (bytesOk_cons hv
        (bytesOk_append (bytesOk_serLP8 hnl hn) (bytesOk_serLP32 hc)))
  | contractCall addr cname fname args =>
      obtain ⟨haddr, hcl, hc, hfl, hf, -, hargs⟩ := hp
      exact bytesOk_cons (by norm_num) (bytesOk_append (bytesOk_append (bytesOk_append
        (bytesOk_append (bytesOk_serAddress haddr) (bytesOk_serLP8 hcl hc))
        (bytesOk_serLP8 hfl hf)) (bytesOk_beBytes 4 _))
        (bytesOk_serAll fun v hv => bytesOk_serClarityV (hargs v hv)))

theorem bytesOk_serializeTransaction {tx : StacksTransaction} (htx : wfTransaction tx) :
    bytesOk (serializeTransaction tx) := by
  obtain ⟨hver, -, hauth, hanchor, hpcm, -, hpcs, hpl⟩ := htx
  have ha : tx.anchorMode < 256 := by rcases hanchor with h | h | h <;> omega
  have hm : tx.postConditionMode < 256 := by rcases hpcm with h | h <;> omega
  intro b hb
  simp only [serializeTransaction, List.mem_cons, List.mem_append] at hb
  rcases hb with ((((h | h) | h) | (h | h | h)) | h) | h <;>
    first
    | omega
    | exact bytesOk_beBytes _ _ b h
    | exact bytesOk_serAuthorization hauth b h
    | exact bytesOk_serAll (fun pc hpc => bytesOk_serPostCondition (hpcs pc hpc)) b h
    | exact bytesOk_serPayload hpl b h

/-- Hex deserialization of a hex-serialized transaction, with or without the
`0x` marker, recovers the transaction. -/
theorem deserializeTransactionHex_ser {tx : StacksTransaction}
    (htx : wfTransaction tx) :
    deserializeTransactionHex (serializeTransactionHex tx) = .ok tx ∧
      deserializeTransactionHex ('0' :: 'x' :: serializeTransactionHex tx) = .ok tx := by
  have hok := bytesOk_serializeTransaction htx
  constructor
  · unfold deserializeTransactionHex serializeTransactionHex
    rw [stripHexMarker_bytesToHexChars _ hok, hexCharsToBytes_bytesToHexChars _ hok]
    exact deserializeTransactionBytes_ser htx
  · unfold deserializeTransactionHex serializeTransactionHex
    rw [stripHexMarker_marker, hexCharsToBytes_bytesToHexChars _ hok]
    exact deserializeTransactionBytes_ser htx

/-- `serialize ∘ deserialize` on a valid byte string: a successful parse that
consumes the whole input re-serializes to the original bytes. -/
theorem serializeTransaction_of_parse {bs : List Nat} {tx : StacksTransaction}
    (hok : bytesOk bs) (h : parseTransaction bs = .ok (tx, [])) :
    serializeTransaction tx = bs := by
  have := parseTransaction_eq hok h
  rw [List.append_nil] at this
  exact this.symm

theorem insertSorted_perm (x : String) (xs : List String) :
    (insertSorted x xs).Perm (x :: xs) := by
  induction xs with
  | nil => exact List.Perm.refl _
  | cons y t ih =>
      unfold insertSorted
      by_cases h : strLe x y = true
      · rw [if_pos h]
      · rw [if_neg h]
        exact (ih.cons y).trans (List.Perm.swap x y t)

theorem jsSort_perm (xs : List String) : (jsSort xs).Perm xs := by
  induction xs with
  | nil => exact List.Perm.refl _
  | cons x t ih =>
      show (insertSorted x (jsSort t)).Perm _
      exact (insertSorted_perm x (jsSort t)).trans (ih.cons x)

/-- C1: serialization round-trip.  For every structurally valid envelope,
deserializing the serialized bytes reproduces every field; the same holds for
hex input without and with a `0x` marker; and re-serializing a value decoded
from a valid byte string reproduces the original bytes exactly, with no
re-canonicalization of key or post-condition order. -/
theorem C1_serializationRoundTrip (tx : StacksTransaction) (bs : List Nat)
    (htx : wfTransaction tx) (hok : bytesOk bs) :
    deserializeTransactionBytes (serializeTransaction tx) = .ok tx ∧
      deserializeTransactionHex (serializeTransactionHex tx) = .ok tx ∧
      deserializeTransactionHex ('0' :: 'x' :: serializeTransactionHex tx) = .ok tx ∧
      (∀ tx2 : StacksTransaction, parseTransaction bs = .ok (tx2, []) →
        serializeTransaction tx2 = bs) :=
  ⟨deserializeTransactionBytes_ser htx, (deserializeTransactionHex_ser htx).1,
    (deserializeTransactionHex_ser htx).2,
    fun _ h => serializeTransaction_of_parse hok h⟩

theorem C1_serializationRoundTrip_witness :
    wfTransaction txA ∧ bytesOk (serializeTransaction txA) ∧
      (deserializeTransactionBytes (serializeTransaction txA) = .ok txA ∧
        deserializeTransactionHex (serializeTransactionHex txA) = .ok txA ∧
        deserializeTransactionHex ('0' :: 'x' :: serializeTransactionHex txA) = .ok txA ∧
        (∀ tx2 : StacksTransaction,
          parseTransaction (serializeTransaction txA) = .ok (tx2, []) →
            serializeTransaction tx2 = serializeTransaction txA)) :=
  ⟨by decide, by decide,
    C1_serializationRoundTrip txA (serializeTransaction txA) (by decide) (by decide)⟩

/-- C2: multi-sig address reconciliation.  `sortPublicKeysForAddress` first
derives the address hash from the keys in the supplied order and returns them
unchanged on a match; otherwise it retries with the keys lexicographically
sorted and returns the sorted list on a match; otherwise it fails with
`AddressMismatchError`. -/
theorem C2_sortPublicKeysForAddress (env : CryptoEnv) (publicKeys : List String)
    (numSigs : Nat) (hashMode : MultiHashMode) (hash : List Nat) :
    (env.multiSigHash hashMode numSigs (publicKeys.map keyBytes) = hash →
      sortPublicKeysForAddress env publicKeys numSigs hashMode hash = .ok publicKeys) ∧
    (env.multiSigHash hashMode numSigs (publicKeys.map keyBytes) ≠ hash →
      env.multiSigHash hashMode numSigs ((jsSort publicKeys).map keyBytes) = hash →
      sortPublicKeysForAddress env publicKeys numSigs hashMode hash =
        .ok (jsSort publicKeys)) ∧
    (env.multiSigHash hashMode numSigs (publicKeys.map keyBytes) ≠ hash →
      env.multiSigHash hashMode numSigs ((jsSort publicKeys).map keyBytes) ≠ hash →
      sortPublicKeysForAddress env publicKeys numSigs hashMode hash =
        .error .addressMismatch) := by
  refine ⟨fun h1 => ?_, fun h1 h2 => ?_, fun h1 h2 => ?_⟩ <;>
    simp only [sortPublicKeysForAddress]
  · rw [if_pos h1]
  · rw [if_neg h1, if_pos h2]
  · rw [if_neg h1, if_neg h2]

theorem C2_sortPublicKeysForAddress_witness :
    envW.multiSigHash .p2sh 2 ((["0b", "0a"]).map keyBytes) ≠ [2, 10, 11] ∧
    envW.multiSigHash .p2sh 2 ((jsSort ["0b", "0a"]).map keyBytes) = [2, 10, 11] ∧
    sortPublicKeysForAddress envW ["0b", "0a"] 2 .p2sh [2, 10, 11] =
      .ok (jsSort ["0b", "0a"]) :=
  ⟨by decide, by decide,
    (C2_sortPublicKeysForAddress envW ["0b", "0a"] 2 .p2sh [2, 10, 11]).2.1
      (by decide) (by decide)⟩

/-- C8: whenever `sortPublicKeysForAddress` returns without throwing, its
result is either exactly the input key list or a lexicographically sorted
copy of it — in both cases a permutation of the input (the input list itself
is never mutated: the source sorts a `slice()` copy, and this embedding is
pure). -/
theorem C8_reconciliationPermutation (env : CryptoEnv) (publicKeys : List String)
    (numSigs : Nat) (hashMode : MultiHashMode) (hash : List Nat)
    (result : List String)
    (h : sortPublicKeysForAddress env publicKeys numSigs hashMode hash = .ok result) :
    (result = publicKeys ∨ result = jsSort publicKeys) ∧ result.Perm publicKeys := by
  simp only [sortPublicKeysForAddress] at h
  by_cases h1 : env.multiSigHash hashMode numSigs (publicKeys.map keyBytes) = hash
  · rw [if_pos h1] at h
    cases h
    exact ⟨Or.inl rfl, List.Perm.refl _⟩
  · rw [if_neg h1] at h
    by_cases h2 : env.multiSigHash hashMode numSigs ((jsSort publicKeys).map keyBytes) = hash
    · rw [if_pos h2] at h
      cases h
      exact ⟨Or.inr rfl, jsSort_perm publicKeys⟩
    · rw [if_neg h2] at h
      exact absurd h (by simp)

theorem C8_reconciliationPermutation_witness :
    sortPublicKeysForAddress envW ["0b", "0a"] 2 .p2sh [2, 11, 10] = .ok ["0b", "0a"] ∧
    ((["0b", "0a"] : List String) = ["0b", "0a"] ∨
      (["0b", "0a"] : List String) = jsSort ["0b", "0a"]) ∧
    (["0b", "0a"] : List String).Perm ["0b", "0a"] :=
  ⟨by decide,
    (C8_reconciliationPermutation envW ["0b", "0a"] 2 .p2sh [2, 11, 10] _ (by decide)).1,
    (C8_reconciliationPermutation envW ["0b", "0a"] 2 .p2sh [2, 11, 10] _ (by decide)).2⟩

theorem find?_some_pred {p : α → Bool} :
    ∀ {l : List α} {a : α}, l.find? p = some a → a ∈ l ∧ p a = true := by
  intro l
  induction l with
  | nil => intro a h; exact absurd h (by simp)
  | cons x t ih =>
      intro a h
      rw [List.find?_cons] at h
      cases hp : p x with
      | true =>
          rw [hp] at h
          cases h
          exact ⟨List.mem_cons_self _ _, hp⟩
      | false =>
          rw [hp] at h
          obtain ⟨hm, hpa⟩ := ih h
          exact ⟨List.mem_cons_of_mem _ hm, hpa⟩

theorem signOrigin_multi {env : CryptoEnv} {sk : String} {tx : StacksTransaction}
    {c : MultiSigSC} (h : tx.auth.spendingCondition = .multi c) :
    (signOrigin env sk tx).auth.spendingCondition =
      .multi { c with
        fields := c.fields ++ [⟨env.sigCompressed sk, .signature, env.sign sk tx⟩] } := by
  unfold signOrigin
  cases htx : tx.auth with
  | standard o =>
      rw [htx] at h
      have ho : o = .multi c := h
      subst ho
      rfl
  | sponsored o s =>
      rw [htx] at h
      have ho : o = .multi c := h
      subst ho
      rfl

theorem appendOrigin_multi {pk : String} {tx : StacksTransaction}
    {c : MultiSigSC} (h : tx.auth.spendingCondition = .multi c) :
    (appendOrigin pk tx).auth.spendingCondition =
      .multi { c with
        fields := c.fields ++
          [⟨publicKeyIsCompressed (keyBytes pk), .publicKey, keyBytes pk⟩] } := by
  unfold appendOrigin
  cases htx : tx.auth with
  | standard o =>
      rw [htx] at h
      have ho : o = .multi c := h
      subst ho
      rfl
  | sponsored o s =>
      rw [htx] at h
      have ho : o = .multi c := h
      subst ho
      rfl

theorem foldSignAppend_fields (env : CryptoEnv) (signerKeys : List String) :
    ∀ (pubs : List String) (tx : StacksTransaction) (c : MultiSigSC),
      tx.auth.spendingCondition = .multi c →
      ∃ c2 : MultiSigSC,
        (pubs.foldl
            (fun t pk =>
              match signerKeys.find? (fun key => env.priv2pub key == pk) with
              | some signerKey => signOrigin env signerKey t
              | none => appendOrigin pk t) tx).auth.spendingCondition = .multi c2 ∧
        c2.fields.map AuthField.kind = c.fields.map AuthField.kind ++
          pubs.map (fun pk =>
            if signerKeys.any (fun key => env.priv2pub key == pk)
            then AuthFieldKind.signature else AuthFieldKind.publicKey) := by
  intro pubs
  induction pubs with
  | nil => exact fun tx c h => ⟨c, h, by simp⟩
  | cons pk rest ih =>
      intro tx c h
      rw [List.foldl_cons]
      cases hf : signerKeys.find? (fun key => env.priv2pub key == pk) with
      | some sk =>
          have hany : signerKeys.any (fun key => env.priv2pub key == pk) = true := by
            rw [List.any_eq_true]
            exact ⟨sk, (find?_some_pred hf).1, (find?_some_pred hf).2⟩
          obtain ⟨c2, h2, hmap⟩ := ih (signOrigin env sk tx) _ (signOrigin_multi h)
          refine ⟨c2, h2, ?_⟩
          rw [hmap, List.map_cons, hany]
          simp
      | none =>
          have hany : signerKeys.any (fun key => env.priv2pub key == pk) = false := by
            rw [Bool.eq_false_iff, Ne, List.any_eq_true]
            rintro ⟨k, hk, hp⟩
            exact absurd (List.find?_eq_none.1 hf k hk) (by simp [hp])
          obtain ⟨c2, h2, hmap⟩ := ih (appendOrigin pk tx) _ (appendOrigin_multi h)
          refine ⟨c2, h2, ?_⟩
          rw [hmap, List.map_cons, hany]
          simp

theorem count_kind_map (l : List AuthField) :
    (l.filter (fun f => f.kind == .signature)).length =
      (l.map AuthField.kind).count AuthFieldKind.signature := by
  induction l with
  | nil => rfl
  | cons f t ih =>
      rw [List.map_cons, List.count_cons, List.filter_cons]
      by_cases h : f.kind = AuthFieldKind.signature
      · simp [h, ih]
      · simp only [beq_iff_eq, h, if_neg]
        simp [ih, h]

theorem count_sig_of_dispatch (env : CryptoEnv) (signerKeys : List String)
    (pubs : List String) :
    ((pubs.map (fun pk =>
        if signerKeys.any (fun key => env.priv2pub key == pk)
        then AuthFieldKind.signature
        else AuthFieldKind.publicKey)).count AuthFieldKind.signature) =
      (pubs.filter (fun pk => signerKeys.any fun key => env.priv2pub key == pk)).length := by
  induction pubs with
  | nil => rfl
  | cons pk t ih =>
      rw [List.map_cons, List.filter_cons]
      cases h : signerKeys.any (fun key => env.priv2pub key == pk) with
      | true =>
          rw [if_pos rfl, if_pos rfl, List.count_cons, ih, List.length_cons]
          simp
      | false =>
          rw [if_neg (by simp), if_neg (by simp), List.count_cons, ih]
          simp

/-- C9: unmatched signer keys are silently ignored.  With no target address,
`mutatingSignAppendMultiSig` succeeds and appends exactly one auth field per
supplied public key — a signature field when some signer key derives to that
key, a bare public-key field otherwise; a non-matching signer key contributes
nothing and raises no error, so the signature count equals the number of
matched public keys (which may be below the number of signer keys). -/
theorem C9_unmatchedSignerKeysIgnored (env : CryptoEnv) (tx : StacksTransaction)
    (publicKeys signerKeys : List String) (c : MultiSigSC)
    (h : tx.auth.spendingCondition = .multi c) :
    ∃ tx2 : StacksTransaction,
      mutatingSignAppendMultiSig env tx publicKeys signerKeys none = .ok tx2 ∧
      ∃ c2 : MultiSigSC, tx2.auth.spendingCondition = .multi c2 ∧
        c2.fields.length = c.fields.length + publicKeys.length ∧
        c2.fields.map AuthField.kind = c.fields.map AuthField.kind ++
          publicKeys.map (fun pk =>
            if signerKeys.any (fun key => env.priv2pub key == pk)
            then AuthFieldKind.signature else AuthFieldKind.publicKey) ∧
        (c2.fields.filter (fun f => f.kind == .signature)).length =
          (c.fields.filter (fun f => f.kind == .signature)).length +
            (publicKeys.filter (fun pk =>
              signerKeys.any fun key => env.priv2pub key == pk)).length := by
  obtain ⟨c2, h2, hmap⟩ := foldSignAppend_fields env signerKeys publicKeys tx c h
  refine ⟨_, ?_, c2, h2, ?_, hmap, ?_⟩
  · unfold mutatingSignAppendMultiSig
    rw [h]
    rfl
  · have := congrArg List.length hmap
    simpa using this
  · rw [count_kind_map, count_kind_map c.fields, hmap, List.count_append,
      count_sig_of_dispatch]

theorem C9_unmatchedSignerKeysIgnored_witness :
    (StacksTransaction.mk 0 1
        (.standard (.multi ⟨.p2sh, List.replicate 20 3, 0, 0, [], 2⟩)) 3 2 []
        (.tokenTransfer (.standardPrincipalCV ⟨22, List.replicate 20 9⟩) 5
          (List.replicate 34 0))).auth.spendingCondition =
      .multi ⟨.p2sh, List.replicate 20 3, 0, 0, [], 2⟩ ∧
    ∃ tx2 : StacksTransaction,
      mutatingSignAppendMultiSig envW
        (StacksTransaction.mk 0 1
          (.standard (.multi ⟨.p2sh, List.replicate 20 3, 0, 0, [], 2⟩)) 3 2 []
          (.tokenTransfer (.standardPrincipalCV ⟨22, List.replicate 20 9⟩) 5
            (List.replicate 34 0)))
        ["aP", "b"] ["a", "z"] none = .ok tx2 ∧
      ∃ c2 : MultiSigSC, tx2.auth.spendingCondition = .multi c2 ∧
        c2.fields.length = ([] : List AuthField).length + (["aP", "b"] : List String).length ∧
        c2.fields.map AuthField.kind = ([] : List AuthField).map AuthField.kind ++
          (["aP", "b"] : List String).map (fun pk =>
            if (["a", "z"] : List String).any (fun key => envW.priv2pub key == pk)
            then AuthFieldKind.signature else AuthFieldKind.publicKey) ∧
        (c2.fields.filter (fun f => f.kind == .signature)).length =
          (([] : List AuthField).filter (fun f => f.kind == .signature)).length +
            ((["aP", "b"] : List String).filter (fun pk =>
              (["a", "z"] : List String).any fun key => envW.priv2pub key == pk)).length :=
  ⟨by decide,
    C9_unmatchedSignerKeysIgnored envW _ ["aP", "b"] ["a", "z"]
      ⟨.p2sh, List.replicate 20 3, 0, 0, [], 2⟩ (by decide)⟩

theorem except_map_eq_ok {ε α β : Type} {m : Except ε α} {f : α → β} {b : β}
    (h : m.map f = .ok b) : ∃ a, m = .ok a ∧ f a = b := by
  cases m with
  | error e => exact absurd h (by simp [Except.map])
  | ok a =>
      refine ⟨a, rfl, ?_⟩
      simpa [Except.map] using h

theorem except_bind_eq_ok {ε α β : Type} {m : Except ε α} {f : α → Except ε β} {b : β}
    (h : m.bind f = .ok b) : ∃ a, m = .ok a ∧ f a = .ok b := by
  cases m with
  | error e => exact absurd h (by simp [Except.bind])
  | ok a => exact ⟨a, rfl, h⟩

theorem setFee_signer (tx : StacksTransaction) (f : Nat) :
    (tx.setFee f).auth.spendingCondition.signer = tx.auth.spendingCondition.signer := by
  show (tx.auth.setFee f).spendingCondition.signer = _
  cases tx.auth with
  | standard o => cases o <;> rfl
  | sponsored o s => rfl

theorem setNonce_signer (tx : StacksTransaction) (n : Nat) :
    (tx.setNonce n).auth.spendingCondition.signer = tx.auth.spendingCondition.signer := by
  show (tx.auth.setNonce n).spendingCondition.signer = _
  cases tx.auth with
  | standard o => cases o <;> rfl
  | sponsored o s => cases o <;> rfl

/-- In the shared finalization block, a `getNonce` call is always made with
the single-sig address version and the (preserved) origin signer hash of the
resulting transaction. -/
theorem finalizeFeeNonce_nonceCall {feeEst : StacksTransaction → Nat}
    {nonceAt : Nat → List Nat → Nat} {optFee : Option Nat} {network : StacksNetwork}
    {tx0 tx : StacksTransaction} {calls : List CollabCall}
    (h : finalizeFeeNonce feeEst nonceAt optFee none network tx0 = (tx, calls)) :
    CollabCall.getNonce network.addressVersionSingleSig
      tx.auth.spendingCondition.signer ∈ calls := by
  unfold finalizeFeeNonce at h
  cases optFee with
  | none =>
      obtain ⟨h1, h2⟩ := Prod.mk.injEq .. ▸ h
      subst h1 h2
      rw [setNonce_signer, setFee_signer]
      simp
  | some f =>
      obtain ⟨h1, h2⟩ := Prod.mk.injEq .. ▸ h
      subst h1 h2
      rw [setNonce_signer]
      simp

/-- C10: whenever a nonce lookup happens in `makeUnsignedSTXTokenTransfer`,
`makeUnsignedContractDeploy` or `makeUnsignedContractCall` (i.e. the caller
omitted the nonce), the address handed to the collaborator is built from the
network's single-sig address version and the origin spending condition's
signer hash — also when that condition is multi-sig. -/
theorem C10_nonceLookupUsesSingleSigVersion :
    (∀ (env : CryptoEnv) (feeEst : StacksTransaction → Nat)
        (nonceAt : Nat → List Nat → Nat) (o : TokenTransferOptions)
        (signer : SignerSpec) (tx : StacksTransaction) (calls : List CollabCall),
      o.nonce = none →
      makeUnsignedSTXTokenTransfer env feeEst nonceAt o signer = .ok (tx, calls) →
      CollabCall.getNonce (o.network.getD STACKS_MAINNET).addressVersionSingleSig
        tx.auth.spendingCondition.signer ∈ calls) ∧
    (∀ (env : CryptoEnv) (feeEst : StacksTransaction → Nat)
        (nonceAt : Nat → List Nat → Nat) (o : ContractDeployOptions)
        (signer : SignerSpec) (tx : StacksTransaction) (calls : List CollabCall),
      o.nonce = none →
      makeUnsignedContractDeploy env feeEst nonceAt o signer = .ok (tx, calls) →
      CollabCall.getNonce (o.network.getD STACKS_MAINNET).addressVersionSingleSig
        tx.auth.spendingCondition.signer ∈ calls) ∧
    (∀ (env : CryptoEnv) (feeEst : StacksTransaction → Nat)
        (nonceAt : Nat → List Nat → Nat) (o : ContractCallOptions)
        (signer : SignerSpec) (tx : StacksTransaction) (calls : List CollabCall),
      o.nonce = none →
      makeUnsignedContractCall env feeEst nonceAt o signer = .ok (tx, calls) →
      CollabCall.getNonce (o.network.getD STACKS_MAINNET).addressVersionSingleSig
        tx.auth.spendingCondition.signer ∈ calls) := by
  refine ⟨?_, ?_, ?_⟩ <;>
    · intro env feeEst nonceAt o signer tx calls hn h
      first
      | unfold makeUnsignedSTXTokenTransfer at h
      | unfold makeUnsignedContractDeploy at h
      | unfold makeUnsignedContractCall at h
      rw [hn] at h
      obtain ⟨cond, hc, hres⟩ := except_map_eq_ok h
      exact finalizeFeeNonce_nonceCall hres

theorem C10_nonceLookupUsesSingleSigVersion_witness :
    ({ recipient := .standardPrincipalCV ⟨22, List.replicate 20 9⟩, amount := 5,
        fee := some 1, nonce := none, network := none, memo := none,
        sponsored := none : TokenTransferOptions }).nonce = none ∧
    ∃ tx calls,
      makeUnsignedSTXTokenTransfer envW (fun _ => 0) (fun _ _ => 7)
        { recipient := .standardPrincipalCV ⟨22, List.replicate 20 9⟩, amount := 5,
          fee := some 1, nonce := none, network := none, memo := none,
          sponsored := none } (.multi 2 ["0b", "0a"] none false) = .ok (tx, calls) ∧
      CollabCall.getNonce
        (({ recipient := .standardPrincipalCV ⟨22, List.replicate 20 9⟩, amount := 5,
            fee := some 1, nonce := none, network := none, memo := none,
            sponsored := none : TokenTransferOptions }).network.getD
          STACKS_MAINNET).addressVersionSingleSig
        tx.auth.spendingCondition.signer ∈ calls := by
  refine ⟨rfl, ?_⟩
  have hok : (makeUnsignedSTXTokenTransfer envW (fun _ => 0) (fun _ _ => 7)
      { recipient := .standardPrincipalCV ⟨22, List.replicate 20 9⟩, amount := 5,
        fee := some 1, nonce := none, network := none, memo := none,
        sponsored := none } (.multi 2 ["0b", "0a"] none false)).isOk = true := by decide
  cases hres : makeUnsignedSTXTokenTransfer envW (fun _ => 0) (fun _ _ => 7)
      { recipient := .standardPrincipalCV ⟨22, List.replicate 20 9⟩, amount := 5,
        fee := some 1, nonce := none, network := none, memo := none,
        sponsored := none } (.multi 2 ["0b", "0a"] none false) with
  | error e => rw [hres] at hok; exact absurd hok (by simp [Except.isOk, Except.toBool])
  | ok p =>
      obtain ⟨tx, calls⟩ := p
      exact ⟨tx, calls, rfl,
        C10_nonceLookupUsesSingleSigVersion.1 envW (fun _ => 0) (fun _ _ => 7)
          _ (.multi 2 ["0b", "0a"] none false) tx calls rfl hres⟩

theorem setFee_origin_nonce (tx : StacksTransaction) (f : Nat) :
    (tx.setFee f).auth.spendingCondition.nonce = tx.auth.spendingCondition.nonce := by
  show (tx.auth.setFee f).spendingCondition.nonce = _
  cases tx.auth with
  | standard o => cases o <;> rfl
  | sponsored o s => rfl

theorem setNonce_origin_fee (tx : StacksTransaction) (n : Nat) :
    (tx.setNonce n).auth.spendingCondition.fee = tx.auth.spendingCondition.fee := by
  show (tx.auth.setNonce n).spendingCondition.fee = _
  cases tx.auth with
  | standard o => cases o <;> rfl
  | sponsored o s => cases o <;> rfl

theorem setFee_isSponsored (tx : StacksTransaction) (f : Nat) :
    (tx.setFee f).auth.isSponsored = tx.auth.isSponsored := by
  show (tx.auth.setFee f).isSponsored = _
  cases tx.auth <;> rfl

theorem setNonce_isSponsored (tx : StacksTransaction) (n : Nat) :
    (tx.setNonce n).auth.isSponsored = tx.auth.isSponsored := by
  show (tx.auth.setNonce n).isSponsored = _
  cases tx.auth <;> rfl

theorem setFee_isSingleSig (tx : StacksTransaction) (f : Nat) :
    isSingleSig (tx.setFee f).auth.spendingCondition =
      isSingleSig tx.auth.spendingCondition := by
  show isSingleSig ((tx.auth.setFee f).spendingCondition) = _
  cases tx.auth with
  | standard o => cases o <;> rfl
  | sponsored o s => rfl

theorem setNonce_isSingleSig (tx : StacksTransaction) (n : Nat) :
    isSingleSig (tx.setNonce n).auth.spendingCondition =
      isSingleSig tx.auth.spendingCondition := by
  show isSingleSig ((tx.auth.setNonce n).spendingCondition) = _
  cases tx.auth with
  | standard o => cases o <;> rfl
  | sponsored o s => cases o <;> rfl

/-- Full characterization of the shared fee/nonce finalization block: each
collaborator is invoked exactly when the corresponding option was omitted,
the fee estimator sees the freshly built transaction, and all envelope fields
other than the rewritten fee/nonce are preserved. -/
theorem finalizeFeeNonce_spec {feeEst : StacksTransaction → Nat}
    {nonceAt : Nat → List Nat → Nat} {optFee optNonce : Option Nat}
    {network : StacksNetwork} {tx0 tx : StacksTransaction} {calls : List CollabCall}
    (h : finalizeFeeNonce feeEst nonceAt optFee optNonce network tx0 = (tx, calls)) :
    ((∃ t, CollabCall.estimateFee t ∈ calls) ↔ optFee = none) ∧
    ((∃ v hsh, CollabCall.getNonce v hsh ∈ calls) ↔ optNonce = none) ∧
    (∀ t, CollabCall.estimateFee t ∈ calls → t = tx0) ∧
    tx.version = tx0.version ∧ tx.chainId = tx0.chainId ∧
    tx.anchorMode = tx0.anchorMode ∧ tx.postConditionMode = tx0.postConditionMode ∧
    tx.postConditions = tx0.postConditions ∧ tx.payload = tx0.payload ∧
    tx.auth.isSponsored = tx0.auth.isSponsored ∧
    isSingleSig tx.auth.spendingCondition = isSingleSig tx0.auth.spendingCondition ∧
    (optFee ≠ none → tx.auth.spendingCondition.fee = tx0.auth.spendingCondition.fee) ∧
    (optNonce ≠ none → tx.auth.spendingCondition.nonce =
      tx0.auth.spendingCondition.nonce) := by
  unfold finalizeFeeNonce at h
  cases optFee with
  | none =>
      cases optNonce with
      | none =>
          obtain ⟨h1, h2⟩ := Prod.mk.injEq .. ▸ h
          subst h1 h2
          refine ⟨by simp, by simp, by simp, rfl, rfl, rfl, rfl, rfl, rfl, ?_, ?_,
            by simp, by simp⟩
          · rw [setNonce_isSponsored, setFee_isSponsored]
          · rw [setNonce_isSingleSig, setFee_isSingleSig]
      | some n =>
          obtain ⟨h1, h2⟩ := Prod.mk.injEq .. ▸ h
          subst h1 h2
          refine ⟨by simp, by simp, by simp, rfl, rfl, rfl, rfl, rfl, rfl,
            setFee_isSponsored .., setFee_isSingleSig .., by simp,
            fun _ => setFee_origin_nonce ..⟩
  | some f =>
      cases optNonce with
      | none =>
          obtain ⟨h1, h2⟩ := Prod.mk.injEq .. ▸ h
          subst h1 h2
          refine ⟨by simp, by simp, by simp, rfl, rfl, rfl, rfl, rfl, rfl,
            setNonce_isSponsored .., setNonce_isSingleSig ..,
            fun _ => setNonce_origin_fee .., by simp⟩
      | some n =>
          obtain ⟨h1, h2⟩ := Prod.mk.injEq .. ▸ h
          subst h1 h2
          exact ⟨by simp, by simp, by simp, rfl, rfl, rfl, rfl, rfl, rfl, rfl, rfl,
            fun _ => rfl, fun _ => rfl⟩

theorem buildSpendingCondition_ok {env : CryptoEnv} {signer : SignerSpec}
    {nonce fee : Nat} {cond : SpendingCondition}
    (h : buildSpendingCondition env signer nonce fee = .ok cond) :
    cond.fee = fee ∧ cond.nonce = nonce ∧ isSingleSig cond = signer.isSingle := by
  cases signer with
  | single pk =>
      unfold buildSpendingCondition at h
      cases h
      exact ⟨rfl, rfl, rfl⟩
  | multi n pks addr ns =>
      unfold buildSpendingCondition at h
      obtain ⟨pubs, h1, h2⟩ := except_bind_eq_ok h
      obtain ⟨c, h3, h4⟩ := except_map_eq_ok h2
      cases h4
      unfold createMultiSigSpendingCondition at h3
      simp only [] at h3
      cases hcc : ((if ns then MultiHashMode.p2shNonSeq else MultiHashMode.p2sh).requiresCompressed
          && (pubs.map keyBytes).any fun k => !publicKeyIsCompressed k) with
      | true => rw [hcc] at h3; exact absurd h3 (by simp)
      | false =>
          rw [hcc] at h3
          simp only [Bool.false_eq_true, if_false] at h3
          cases h3
          exact ⟨rfl, rfl, rfl⟩

/-- C6: builder defaults and conditional estimation, for the token-transfer
and contract-deploy builders.  Omitted options get the documented defaults
(network mainnet, anchor mode Any, post-condition mode Deny, sponsored false,
fee 0 and nonce 0 at condition-build time, visible in the transaction the fee
estimator receives and in the final fee/nonce when supplied); the spending
condition is single-sig exactly when one public key was supplied; the fee
estimator is invoked iff no fee was supplied and the nonce lookup iff no
nonce was supplied. -/
theorem C6_builderDefaultsAndEstimation :
    (∀ (env : CryptoEnv) (feeEst : StacksTransaction → Nat)
        (nonceAt : Nat → List Nat → Nat) (o : TokenTransferOptions)
        (signer : SignerSpec) (tx : StacksTransaction) (calls : List CollabCall),
      makeUnsignedSTXTokenTransfer env feeEst nonceAt o signer = .ok (tx, calls) →
      tx.version = (o.network.getD STACKS_MAINNET).transactionVersion ∧
      tx.chainId = (o.network.getD STACKS_MAINNET).chainId ∧
      tx.anchorMode = anchorModeAny ∧
      tx.postConditionMode = postConditionModeDeny ∧
      tx.auth.isSponsored = o.sponsored.getD false ∧
      isSingleSig tx.auth.spendingCondition = signer.isSingle ∧
      ((∃ t, CollabCall.estimateFee t ∈ calls) ↔ o.fee = none) ∧
      (∀ t, CollabCall.estimateFee t ∈ calls →
        t.auth.spendingCondition.fee = o.fee.getD 0 ∧
        t.auth.spendingCondition.nonce = o.nonce.getD 0) ∧
      ((∃ v hsh, CollabCall.getNonce v hsh ∈ calls) ↔ o.nonce = none) ∧
      (o.fee ≠ none → tx.auth.spendingCondition.fee = o.fee.getD 0) ∧
      (o.nonce ≠ none → tx.auth.spendingCondition.nonce = o.nonce.getD 0)) ∧
    (∀ (env : CryptoEnv) (feeEst : StacksTransaction → Nat)
        (nonceAt : Nat → List Nat → Nat) (o : ContractDeployOptions)
        (signer : SignerSpec) (tx : StacksTransaction) (calls : List CollabCall),
      makeUnsignedContractDeploy env feeEst nonceAt o signer = .ok (tx, calls) →
      tx.version = (o.network.getD STACKS_MAINNET).transactionVersion ∧
      tx.chainId = (o.network.getD STACKS_MAINNET).chainId ∧
      tx.anchorMode = anchorModeAny ∧
      tx.postConditionMode = o.postConditionMode.getD postConditionModeDeny ∧
      tx.auth.isSponsored = o.sponsored.getD false ∧
      isSingleSig tx.auth.spendingCondition = signer.isSingle ∧
      ((∃ t, CollabCall.estimateFee t ∈ calls) ↔ o.fee = none) ∧
      (∀ t, CollabCall.estimateFee t ∈ calls →
        t.auth.spendingCondition.fee = o.fee.getD 0 ∧
        t.auth.spendingCondition.nonce = o.nonce.getD 0) ∧
      ((∃ v hsh, CollabCall.getNonce v hsh ∈ calls) ↔ o.nonce = none) ∧
      (o.fee ≠ none → tx.auth.spendingCondition.fee = o.fee.getD 0) ∧
      (o.nonce ≠ none → tx.auth.spendingCondition.nonce = o.nonce.getD 0)) := by
  constructor <;>
    · intro env feeEst nonceAt o signer tx calls h
      first
      | unfold makeUnsignedSTXTokenTransfer at h
      | unfold makeUnsignedContractDeploy at h
      obtain ⟨cond, hc, hres⟩ := except_map_eq_ok h
      obtain ⟨hfee, hnonce, hsingle⟩ := buildSpendingCondition_ok hc
      simp only [] at hres
      obtain ⟨hEstIff, hNonceIff, hEstArg, hver, hchain, hanchor, hpcm, -, -,
        hsp, hss, hfeeKeep, hnonceKeep⟩ := finalizeFeeNonce_spec hres
      have hauthsc : (if o.sponsored.getD false then createSponsoredAuth cond
          else createStandardAuth cond).spendingCondition = cond := by
        cases o.sponsored.getD false <;> rfl
      have hauthsp : (if o.sponsored.getD false then createSponsoredAuth cond
          else createStandardAuth cond).isSponsored = o.sponsored.getD false := by
        cases o.sponsored.getD false <;> rfl
      refine ⟨hver, hchain, hanchor, hpcm, ?_, ?_, hEstIff, ?_, hNonceIff, ?_, ?_⟩
      · rw [hsp]
        exact hauthsp
      · rw [hss]
        show isSingleSig ((if o.sponsored.getD false then createSponsoredAuth cond
          else createStandardAuth cond).spendingCondition) = _
        rw [hauthsc, hsingle]
      · intro t ht
        rw [hEstArg t ht]
        constructor
        · show ((if o.sponsored.getD false then createSponsoredAuth cond
            else createStandardAuth cond).spendingCondition).fee = _
          rw [hauthsc, hfee]
        · show ((if o.sponsored.getD false then createSponsoredAuth cond
            else createStandardAuth cond).spendingCondition).nonce = _
          rw [hauthsc, hnonce]
      · intro hf
        rw [hfeeKeep hf]
        show ((if o.sponsored.getD false then createSponsoredAuth cond
          else createStandardAuth cond).spendingCondition).fee = _
        rw [hauthsc, hfee]
      · intro hn
        rw [hnonceKeep hn]
        show ((if o.sponsored.getD false then createSponsoredAuth cond
          else createStandardAuth cond).spendingCondition).nonce = _
        rw [hauthsc, hnonce]

theorem C6_builderDefaultsAndEstimation_witness :
    ∃ tx calls,
      makeUnsignedSTXTokenTransfer envW (fun _ => 42) (fun _ _ => 7)
        { recipient := .standardPrincipalCV ⟨22, List.replicate 20 9⟩, amount := 5,
          fee := none, nonce := none, network := none, memo := none,
          sponsored := none } (.single "02aa") = .ok (tx, calls) ∧
      (tx.version = STACKS_MAINNET.transactionVersion ∧
        tx.chainId = STACKS_MAINNET.chainId ∧
        tx.anchorMode = anchorModeAny ∧
        tx.postConditionMode = postConditionModeDeny ∧
        tx.auth.isSponsored = false ∧
        isSingleSig tx.auth.spendingCondition = true ∧
        (∃ t, CollabCall.estimateFee t ∈ calls) ∧
        (∃ v hsh, CollabCall.getNonce v hsh ∈ calls)) := by
  have hok : (makeUnsignedSTXTokenTransfer envW (fun _ => 42) (fun _ _ => 7)
      { recipient := .standardPrincipalCV ⟨22, List.replicate 20 9⟩, amount := 5,
        fee := none, nonce := none, network := none, memo := none,
        sponsored := none } (.single "02aa")).isOk = true := by decide
  cases hres : makeUnsignedSTXTokenTransfer envW (fun _ => 42) (fun _ _ => 7)
      { recipient := .standardPrincipalCV ⟨22, List.replicate 20 9⟩, amount := 5,
        fee := none, nonce := none, network := none, memo := none,
        sponsored := none } (.single "02aa") with
  | error e => rw [hres] at hok; exact absurd hok (by simp [Except.isOk, Except.toBool])
  | ok p =>
      obtain ⟨tx, calls⟩ := p
      have hspec := C6_builderDefaultsAndEstimation.1 envW (fun _ => 42) (fun _ _ => 7)
        _ (.single "02aa") tx calls hres
      exact ⟨tx, calls, rfl, hspec.1, hspec.2.1, hspec.2.2.1, hspec.2.2.2.1,
        hspec.2.2.2.2.1, by rw [hspec.2.2.2.2.2.1]; rfl,
        hspec.2.2.2.2.2.2.1.2 rfl, hspec.2.2.2.2.2.2.2.2.1.2 rfl⟩

theorem foldSignAppend_postConditions (env : CryptoEnv) (signerKeys : List String) :
    ∀ (pubs : List String) (tx : StacksTransaction),
      (pubs.foldl
          (fun t pk =>
            match signerKeys.find? (fun key => env.priv2pub key == pk) with
            | some signerKey => signOrigin env signerKey t
            | none => appendOrigin pk t) tx).postConditions = tx.postConditions := by
  intro pubs
  induction pubs with
  | nil => intro tx; rfl
  | cons pk rest ih =>
      intro tx
      rw [List.foldl_cons, ih]
      cases hf : signerKeys.find? (fun key => env.priv2pub key == pk) with
      | some sk => rfl
      | none => rfl

theorem mutatingSignAppendMultiSig_postConditions {env : CryptoEnv}
    {tx tx2 : StacksTransaction} {publicKeys signerKeys : List String}
    {address : Option (List Nat)}
    (h : mutatingSignAppendMultiSig env tx publicKeys signerKeys address = .ok tx2) :
    tx2.postConditions = tx.postConditions := by
  unfold mutatingSignAppendMultiSig at h
  cases hsc : tx.auth.spendingCondition with
  | single c => rw [hsc] at h; exact absurd h (by simp)
  | multi c =>
      rw [hsc] at h
      obtain ⟨pubs, h1, h2⟩ := except_map_eq_ok h
      rw [← h2]
      exact foldSignAppend_postConditions env signerKeys pubs tx

/-- C7: the token-transfer builders always produce an envelope with an empty
post-condition list (the options record offers no way to attach any, and the
envelope is constructed with none per SIP-005). -/
theorem C7_tokenTransferNoPostConditions :
    (∀ (env : CryptoEnv) (feeEst : StacksTransaction → Nat)
        (nonceAt : Nat → List Nat → Nat) (o : TokenTransferOptions)
        (signer : SignerSpec) (tx : StacksTransaction) (calls : List CollabCall),
      makeUnsignedSTXTokenTransfer env feeEst nonceAt o signer = .ok (tx, calls) →
      tx.postConditions = []) ∧
    (∀ (env : CryptoEnv) (feeEst : StacksTransaction → Nat)
        (nonceAt : Nat → List Nat → Nat) (o : TokenTransferOptions)
        (s : SignedSignerSpec) (tx : StacksTransaction) (calls : List CollabCall),
      makeSTXTokenTransfer env feeEst nonceAt o s = .ok (tx, calls) →
      tx.postConditions = []) := by
  have hu : ∀ (env : CryptoEnv) (feeEst : StacksTransaction → Nat)
      (nonceAt : Nat → List Nat → Nat) (o : TokenTransferOptions)
      (signer : SignerSpec) (tx : StacksTransaction) (calls : List CollabCall),
      makeUnsignedSTXTokenTransfer env feeEst nonceAt o signer = .ok (tx, calls) →
      tx.postConditions = [] := by
    intro env feeEst nonceAt o signer tx calls h
    unfold makeUnsignedSTXTokenTransfer at h
    obtain ⟨cond, hc, hres⟩ := except_map_eq_ok h
    simp only [] at hres
    obtain ⟨-, -, -, -, -, -, -, hpcs, -⟩ := finalizeFeeNonce_spec hres
    exact hpcs
  refine ⟨hu, ?_⟩
  intro env feeEst nonceAt o s tx calls h
  cases s with
  | single senderKey =>
      unfold makeSTXTokenTransfer at h
      obtain ⟨p, h1, h2⟩ := except_map_eq_ok h
      obtain ⟨hp1, -⟩ := Prod.mk.injEq .. ▸ h2
      subst hp1
      show (signOrigin env senderKey p.1).postConditions = []
      show p.1.postConditions = []
      exact hu env feeEst nonceAt o _ p.1 p.2 (by rw [h1])
  | multi n pks sks addr nonSeq =>
      unfold makeSTXTokenTransfer at h
      obtain ⟨p, h1, h2⟩ := except_bind_eq_ok h
      obtain ⟨tx2, h3, h4⟩ := except_map_eq_ok h2
      obtain ⟨hp1, -⟩ := Prod.mk.injEq .. ▸ h4
      subst hp1
      rw [mutatingSignAppendMultiSig_postConditions h3]
      exact hu env feeEst nonceAt o _ p.1 p.2 (by rw [h1])

theorem C7_tokenTransferNoPostConditions_witness :
    ∃ tx calls,
      makeSTXTokenTransfer envW (fun _ => 42) (fun _ _ => 7)
        { recipient := .standardPrincipalCV ⟨22, List.replicate 20 9⟩, amount := 5,
          fee := some 1, nonce := some 2, network := none, memo := none,
          sponsored := none } (.single "aa") = .ok (tx, calls) ∧
      tx.postConditions = [] := by
  have hok : (makeSTXTokenTransfer envW (fun _ => 42) (fun _ _ => 7)
      { recipient := .standardPrincipalCV ⟨22, List.replicate 20 9⟩, amount := 5,
        fee := some 1, nonce := some 2, network := none, memo := none,
        sponsored := none } (.single "aa")).isOk = true := by decide
  cases hres : makeSTXTokenTransfer envW (fun _ => 42) (fun _ _ => 7)
      { recipient := .standardPrincipalCV ⟨22, List.replicate 20 9⟩, amount := 5,
        fee := some 1, nonce := some 2, network := none, memo := none,
        sponsored := none } (.single "aa") with
  | error e => rw [hres] at hok; exact absurd hok (by simp [Except.isOk, Except.toBool])
  | ok p =>
      obtain ⟨tx, calls⟩ := p
      exact ⟨tx, calls, rfl,
        C7_tokenTransferNoPostConditions.2 envW (fun _ => 42) (fun _ _ => 7)
          _ (.single "aa") tx calls hres⟩

theorem signOrigin_standard_multi {env : CryptoEnv} {sk : String}
    {tx : StacksTransaction} {c : MultiSigSC} (h : tx.auth = .standard (.multi c)) :
    (signOrigin env sk tx).auth = .standard (.multi { c with
      fields := c.fields ++ [⟨env.sigCompressed sk, .signature, env.sign sk tx⟩] }) := by
  unfold signOrigin
  rw [h]

theorem appendOrigin_standard_multi {pk : String} {tx : StacksTransaction}
    {c : MultiSigSC} (h : tx.auth = .standard (.multi c)) :
    (appendOrigin pk tx).auth = .standard (.multi { c with
      fields := c.fields ++
        [⟨publicKeyIsCompressed (keyBytes pk), .publicKey, keyBytes pk⟩] }) := by
  unfold appendOrigin
  rw [h]

/-- C3: for a 2-of-3 multi-sig condition, signing with key A, then key B,
then appending bare key C yields three auth fields in exactly that order with
field-type tags [signature, signature, public-key], and serializing followed
by deserializing reproduces the transaction (hence decodes to the same three
fields in the same order). -/
theorem C3_authFieldOrdering (env : CryptoEnv) (skA skB pkC : String)
    (tx : StacksTransaction) (c : MultiSigSC)
    (hauth : tx.auth = .standard (.multi c)) (hfields : c.fields = [])
    (hreq : c.signaturesRequired = 2)
    (hwf : wfTransaction (appendOrigin pkC (signOrigin env skB (signOrigin env skA tx)))) :
    ∃ c3 : MultiSigSC,
      (appendOrigin pkC (signOrigin env skB (signOrigin env skA tx))).auth =
        .standard (.multi c3) ∧
      c3.signaturesRequired = 2 ∧
      c3.fields.map AuthField.kind =
        [AuthFieldKind.signature, AuthFieldKind.signature, AuthFieldKind.publicKey] ∧
      deserializeTransactionBytes
        (serializeTransaction
          (appendOrigin pkC (signOrigin env skB (signOrigin env skA tx)))) =
        .ok (appendOrigin pkC (signOrigin env skB (signOrigin env skA tx))) := by
  have h1 := @signOrigin_standard_multi env skA _ _ hauth
  have h2 := @signOrigin_standard_multi env skB _ _ h1
  have h3 := @appendOrigin_standard_multi pkC _ _ h2
  refine ⟨_, h3, hreq, ?_, deserializeTransactionBytes_ser hwf⟩
  simp [hfields]

theorem C3_authFieldOrdering_witness :
    (StacksTransaction.mk 0 1
        (.standard (.multi ⟨.p2sh, List.replicate 20 3, 0, 0, [], 2⟩)) 3 2 []
        (.tokenTransfer (.standardPrincipalCV ⟨22, List.replicate 20 9⟩) 5
          (List.replicate 34 0))).auth =
      .standard (.multi ⟨.p2sh, List.replicate 20 3, 0, 0, [], 2⟩) ∧
    wfTransaction (appendOrigin "02aaaaaaaaaaaaaaaaaaaaaaaaaaaaaaaaaaaaaaaaaaaaaaaaaaaaaaaaaaaaaaaa"
      (signOrigin envW "b" (signOrigin envW "a"
        (StacksTransaction.mk 0 1
          (.standard (.multi ⟨.p2sh, List.replicate 20 3, 0, 0, [], 2⟩)) 3 2 []
          (.tokenTransfer (.standardPrincipalCV ⟨22, List.replicate 20 9⟩) 5
            (List.replicate 34 0)))))) ∧
    ∃ c3 : MultiSigSC,
      (appendOrigin "02aaaaaaaaaaaaaaaaaaaaaaaaaaaaaaaaaaaaaaaaaaaaaaaaaaaaaaaaaaaaaaaa" (signOrigin envW "b" (signOrigin envW "a"
        (StacksTransaction.mk 0 1
          (.standard (.multi ⟨.p2sh, List.replicate 20 3, 0, 0, [], 2⟩)) 3 2 []
          (.tokenTransfer (.standardPrincipalCV ⟨22, List.replicate 20 9⟩) 5
            (List.replicate 34 0)))))).auth = .standard (.multi c3) ∧
      c3.signaturesRequired = 2 ∧
      c3.fields.map AuthField.kind =
        [AuthFieldKind.signature, AuthFieldKind.signature, AuthFieldKind.publicKey] ∧
      deserializeTransactionBytes
        (serializeTransaction (appendOrigin "02aaaaaaaaaaaaaaaaaaaaaaaaaaaaaaaaaaaaaaaaaaaaaaaaaaaaaaaaaaaaaaaa" (signOrigin envW "b"
          (signOrigin envW "a"
            (StacksTransaction.mk 0 1
              (.standard (.multi ⟨.p2sh, List.replicate 20 3, 0, 0, [], 2⟩)) 3 2 []
              (.tokenTransfer (.standardPrincipalCV ⟨22, List.replicate 20 9⟩) 5
                (List.replicate 34 0))))))) =
        .ok (appendOrigin "02aaaaaaaaaaaaaaaaaaaaaaaaaaaaaaaaaaaaaaaaaaaaaaaaaaaaaaaaaaaaaaaa" (signOrigin envW "b" (signOrigin envW "a"
          (StacksTransaction.mk 0 1
            (.standard (.multi ⟨.p2sh, List.replicate 20 3, 0, 0, [], 2⟩)) 3 2 []
            (.tokenTransfer (.standardPrincipalCV ⟨22, List.replicate 20 9⟩) 5
              (List.replicate 34 0)))))) :=
  ⟨rfl, by decide,
    C3_authFieldOrdering envW "a" "b" "02aaaaaaaaaaaaaaaaaaaaaaaaaaaaaaaaaaaaaaaaaaaaaaaaaaaaaaaaaaaaaaaa" _ _ rfl rfl rfl (by decide)⟩

theorem wfSpendingCondition_withFee {sc : SpendingCondition} {f : Nat}
    (h : wfSpendingCondition sc) (hf : f < 2 ^ 64) :
    wfSpendingCondition (sc.withFee f) := by
  cases sc with
  | single c =>
      obtain ⟨⟨a, b, cN, d, e, g⟩, i⟩ := h
      exact ⟨⟨a, b, cN, hf, e, g⟩, i⟩
  | multi c =>
      obtain ⟨⟨a, b, cN, d, e, g, j⟩, i⟩ := h
      exact ⟨⟨a, b, cN, hf, e, g, j⟩, i⟩

theorem wfTransaction_setFee {tx : StacksTransaction} {f : Nat}
    (h : wfTransaction tx) (hf : f < 2 ^ 64) : wfTransaction (tx.setFee f) := by
  obtain ⟨hver, hchain, hauth, hanchor, hpcm, hcnt, hpcs, hpl⟩ := h
  refine ⟨hver, hchain, ?_, hanchor, hpcm, hcnt, hpcs, hpl⟩
  show wfAuthorization (tx.auth.setFee f)
  revert hauth
  cases tx.auth with
  | standard o => intro hauth; exact wfSpendingCondition_withFee hauth hf
  | sponsored o s =>
      intro hauth
      exact ⟨hauth.1, wfSpendingCondition_withFee hauth.2 hf⟩

/-- C5: fee-mutation frame.  `setFee 123` followed by serialize/deserialize
reproduces the mutated transaction; the active spending condition's fee reads
123 while the version, chain id, authorization type, anchor mode,
post-condition mode, post-conditions, payload, recipient/amount (inside the
payload), nonce, signer hash and the signature material (the condition is the
old one with only its fee rewritten) are unchanged. -/
theorem C5_setFeeFrame (tx : StacksTransaction) (htx : wfTransaction tx) :
    deserializeTransactionBytes (serializeTransaction (tx.setFee 123)) =
      .ok (tx.setFee 123) ∧
    (tx.setFee 123).auth.activeSpendingCondition.fee = 123 ∧
    (tx.setFee 123).version = tx.version ∧
    (tx.setFee 123).chainId = tx.chainId ∧
    (tx.setFee 123).auth.isSponsored = tx.auth.isSponsored ∧
    (tx.setFee 123).anchorMode = tx.anchorMode ∧
    (tx.setFee 123).postConditionMode = tx.postConditionMode ∧
    (tx.setFee 123).postConditions = tx.postConditions ∧
    (tx.setFee 123).payload = tx.payload ∧
    (tx.setFee 123).auth.activeSpendingCondition =
      tx.auth.activeSpendingCondition.withFee 123 ∧
    (tx.setFee 123).auth.activeSpendingCondition.nonce =
      tx.auth.activeSpendingCondition.nonce ∧
    (tx.setFee 123).auth.activeSpendingCondition.signer =
      tx.auth.activeSpendingCondition.signer ∧
    (tx.setFee 123).auth.spendingCondition.signer = tx.auth.spendingCondition.signer ∧
    (tx.setFee 123).auth.spendingCondition.nonce = tx.auth.spendingCondition.nonce := by
  have hwf2 : wfTransaction (tx.setFee 123) := wfTransaction_setFee htx (by norm_num)
  refine ⟨deserializeTransactionBytes_ser hwf2, ?_, rfl, rfl, setFee_isSponsored .., rfl,
    rfl, rfl, rfl, ?_, ?_, ?_, setFee_signer .., setFee_origin_nonce ..⟩
  · show (tx.auth.setFee 123).activeSpendingCondition.fee = 123
    cases tx.auth with
    | standard o => cases o <;> rfl
    | sponsored o s => cases s <;> rfl
  · show (tx.auth.setFee 123).activeSpendingCondition = _
    cases tx.auth <;> rfl
  · show (tx.auth.setFee 123).activeSpendingCondition.nonce = _
    cases tx.auth with
    | standard o => cases o <;> rfl
    | sponsored o s => cases s <;> rfl
  · show (tx.auth.setFee 123).activeSpendingCondition.signer = _
    cases tx.auth with
    | standard o => cases o <;> rfl
    | sponsored o s => cases s <;> rfl

theorem C5_setFeeFrame_witness :
    wfTransaction txA ∧
      (deserializeTransactionBytes (serializeTransaction (txA.setFee 123)) =
          .ok (txA.setFee 123) ∧
        (txA.setFee 123).auth.activeSpendingCondition.fee = 123 ∧
        (txA.setFee 123).version = txA.version ∧
        (txA.setFee 123).chainId = txA.chainId ∧
        (txA.setFee 123).auth.isSponsored = txA.auth.isSponsored ∧
        (txA.setFee 123).anchorMode = txA.anchorMode ∧
        (txA.setFee 123).postConditionMode = txA.postConditionMode ∧
        (txA.setFee 123).postConditions = txA.postConditions ∧
        (txA.setFee 123).payload = txA.payload ∧
        (txA.setFee 123).auth.activeSpendingCondition =
          txA.auth.activeSpendingCondition.withFee 123 ∧
        (txA.setFee 123).auth.activeSpendingCondition.nonce =
          txA.auth.activeSpendingCondition.nonce ∧
        (txA.setFee 123).auth.activeSpendingCondition.signer =
          txA.auth.activeSpendingCondition.signer ∧
        (txA.setFee 123).auth.spendingCondition.signer =
          txA.auth.spendingCondition.signer ∧
        (txA.setFee 123).auth.spendingCondition.nonce =
          txA.auth.spendingCondition.nonce) :=
  ⟨by decide, C5_setFeeFrame txA (by decide)⟩

theorem parseMultiBody_uncompressed {c : MultiSigSC} {r : List Nat}
    (hc : wfMultiSigSCCore c) (hseg : c.hashMode.requiresCompressed = true)
    (hviol : ∃ f ∈ c.fields, f.compressed = false) :
    parseMultiBody c.hashMode (serMultiBody c ++ r) =
      .error .uncompressedKeyNotAllowed := by
  obtain ⟨hsig, -, hnonce, hfee, hcnt, hreq, hfields⟩ := hc
  unfold serMultiBody parseMultiBody
  simp only [List.append_assoc, List.cons_append]
  rw [readBytesE_append_len _ hsig, step_ok, parseBE_beBytes hnonce, step_ok,
    parseBE_beBytes hfee, step_ok, parseBE_beBytes hcnt, step_ok,
    parseMany_serAll (fun f hf s => parseAuthField_ser (hfields f hf)), step_ok,
    parseBE_beBytes hreq, step_ok]
  have : (c.hashMode.requiresCompressed && c.fields.any fun f => !f.compressed) = true := by
    rw [hseg, Bool.true_and, List.any_eq_true]
    obtain ⟨f, hf, hfc⟩ := hviol
    exact ⟨f, hf, by rw [hfc]; rfl⟩
  rw [this]
  rfl

theorem parseSpendingCondition_uncompressed {c : MultiSigSC} {r : List Nat}
    (hc : wfMultiSigSCCore c) (hseg : c.hashMode.requiresCompressed = true)
    (hviol : ∃ f ∈ c.fields, f.compressed = false) :
    parseSpendingCondition (serSpendingCondition (.multi c) ++ r) =
      .error .uncompressedKeyNotAllowed := by
  show parseSpendingCondition ((c.hashMode.tag :: serMultiBody c) ++ r) = _
  rw [List.cons_append]
  unfold parseSpendingCondition
  rw [readByteE_cons, step_ok]
  cases hm : c.hashMode <;>
    · have h2 := @parseMultiBody_uncompressed c r hc hseg hviol
      rw [hm] at h2
      exact h2

theorem parseTransaction_uncompressed {tx : StacksTransaction} {c : MultiSigSC}
    (htx : wfTransactionCore tx) (hauth : tx.auth = .standard (.multi c))
    (hseg : c.hashMode.requiresCompressed = true)
    (hviol : ∃ f ∈ c.fields, f.compressed = false) :
    parseTransaction (serializeTransaction tx) = .error .uncompressedKeyNotAllowed := by
  obtain ⟨hver, hchain, hac, hanchor, hpcm, hcnt, hpcs, hpl⟩ := htx
  rw [hauth] at hac
  have hcore : wfMultiSigSCCore c := hac
  unfold serializeTransaction parseTransaction
  rw [hauth]
  simp only [List.append_assoc, List.cons_append]
  rw [readByteE_cons, step_ok, parseBE_beBytes hchain, step_ok]
  show step (parseAuthorization ((4 :: serSpendingCondition (.multi c)) ++ _)) _ = _
  rw [List.cons_append]
  unfold parseAuthorization
  rw [readByteE_cons, step_ok]
  show step (step (parseSpendingCondition (serSpendingCondition (.multi c) ++ _)) _) _ = _
  rw [parseSpendingCondition_uncompressed hcore hseg hviol]
  rfl

/-- C4: segwit compression rule.  Constructing a multi-sig condition under a
compression-requiring (segwit-style) hash mode from a key set containing an
uncompressed key fails with `UncompressedKeyNotAllowedError`; if a condition
is forcibly switched to such a hash mode after construction, verification
raises the same error, and so does deserializing the serialized transaction. -/
theorem C4_segwitCompressionRule :
    (∀ (env : CryptoEnv) (hashMode : MultiHashMode) (numSigs : Nat)
        (pubKeys : List String) (nonce fee : Nat),
      hashMode.requiresCompressed = true →
      (∃ k ∈ pubKeys, publicKeyIsCompressed (keyBytes k) = false) →
      createMultiSigSpendingCondition env hashMode numSigs pubKeys nonce fee =
        .error .uncompressedKeyNotAllowed) ∧
    (∀ (env : CryptoEnv) (tx : StacksTransaction) (c : MultiSigSC),
      tx.auth.spendingCondition = .multi c →
      c.hashMode.requiresCompressed = true →
      (∃ f ∈ c.fields, f.compressed = false) →
      verifyOrigin env tx = .error .uncompressedKeyNotAllowed) ∧
    (∀ (tx : StacksTransaction) (c : MultiSigSC),
      wfTransactionCore tx →
      tx.auth = .standard (.multi c) →
      c.hashMode.requiresCompressed = true →
      (∃ f ∈ c.fields, f.compressed = false) →
      parseTransaction (serializeTransaction tx) =
        .error .uncompressedKeyNotAllowed) := by
  refine ⟨?_, ?_, fun tx c h1 h2 h3 h4 => parseTransaction_uncompressed h1 h2 h3 h4⟩
  · intro env hashMode numSigs pubKeys nonce fee hseg hviol
    unfold createMultiSigSpendingCondition
    simp only []
    have : (hashMode.requiresCompressed &&
        (pubKeys.map keyBytes).any fun k => !publicKeyIsCompressed k) = true := by
      rw [hseg, Bool.true_and, List.any_eq_true]
      obtain ⟨k, hk, hkc⟩ := hviol
      exact ⟨keyBytes k, List.mem_map_of_mem _ hk, by rw [hkc]; rfl⟩
    rw [this]
    rfl
  · intro env tx c hsc hseg hviol
    unfold verifyOrigin
    rw [hsc]
    show verifyMultiSC env c = _
    unfold verifyMultiSC
    have : (c.hashMode.requiresCompressed && c.fields.any fun f => !f.compressed) = true := by
      rw [hseg, Bool.true_and, List.any_eq_true]
      obtain ⟨f, hf, hfc⟩ := hviol
      exact ⟨f, hf, by rw [hfc]; rfl⟩
    rw [this]
    rfl

theorem C4_segwitCompressionRule_witness :
    (MultiHashMode.p2wsh.requiresCompressed = true ∧
      (∃ k ∈ [uncompressedKeyW], publicKeyIsCompressed (keyBytes k) = false) ∧
      createMultiSigSpendingCondition envW .p2wsh 2 [uncompressedKeyW] 0 0 =
        .error .uncompressedKeyNotAllowed) ∧
    (mutatedTxW.auth.spendingCondition = .multi mutatedSCW ∧
      (∃ f ∈ mutatedSCW.fields, f.compressed = false) ∧
      verifyOrigin envW mutatedTxW = .error .uncompressedKeyNotAllowed) ∧
    (wfTransactionCore mutatedTxW ∧
      parseTransaction (serializeTransaction mutatedTxW) =
        .error .uncompressedKeyNotAllowed) :=
  ⟨⟨rfl, by decide,
      C4_segwitCompressionRule.1 envW .p2wsh 2 [uncompressedKeyW] 0 0 rfl (by decide)⟩,
    ⟨rfl, by decide,
      C4_segwitCompressionRule.2.1 envW mutatedTxW mutatedSCW rfl rfl (by decide)⟩,
    ⟨by decide,
      C4_segwitCompressionRule.2.2 mutatedTxW mutatedSCW (by decide) rfl rfl
        (by decide)⟩⟩

end OpenDig
